import Mathlib

/-!
# Computer club event replay: a shallow embedding of `computerclub/main.go`

The Go program replays a log of client events over a club with a fixed number
of tables.  This file embeds the event dispatcher (`handleEvent` and the
handlers it calls), the vacate-and-bill procedure (`clientLeavesTable`) and the
closure processor (`closureProcessing`) as Lean functions, and proves
properties of them.

Modelling conventions.

* `time.Time` values of the program all come from `time.Parse("15:04", _)`, so
  they are whole minutes; a time is an `Int` counting minutes from `00:00` of
  the reference day.  A `time.Duration` between two such times is an `Int`
  number of minutes, on which `Duration.Hours` and `Duration.Minutes` are exact.
* Go `int` is the 64-bit signed integer: the accumulators `Revenue` and
  `OccupiedTime` are `Int` values reduced by `wrap64` after every `+=`, as
  the machine wraps them around.  Table numbers and action codes come from
  `strconv.Atoi` and are compared, never added up.
* `map[string]int` is an association list with distinct keys (`AList`); the
  only iteration over the map in the program is followed by `sort.Strings`.
* Lines written to standard output are collected in the field `Stdout`.
* A run-time panic (index out of range) is the outcome `Outcome.panic`.
* The recursion `handleEvent → clientTakesSeat → clientLeavesTable →
  handleEvent` is tied by a fuel counter; `handleEvent` starts it at
  `Queue.length + 1`, and every re-dispatch pops one queue element first.
-/

namespace ComputerClub

/-! ## Library functions of Go used by the program -/

/-- Decimal digits of a natural number, most significant first. -/
def digitsFuel : Nat → Nat → List Char
  | 0, _ => []
  | fuel + 1, n =>
    if n < 10 then [Nat.digitChar n]
    else digitsFuel fuel (n / 10) ++ [Nat.digitChar (n % 10)]

/-- The function `strconv.Itoa`, also the verb `%d` of `fmt`. -/
def itoa (n : Int) : String :=
  if n < 0 then ⟨'-' :: digitsFuel (n.natAbs + 1) n.natAbs⟩
  else ⟨digitsFuel (n.natAbs + 1) n.natAbs⟩

/-- Value of a decimal digit character. -/
def digitVal (c : Char) : Option Nat :=
  if 48 ≤ c.toNat ∧ c.toNat ≤ 57 then some (c.toNat - 48) else none

/-- Reads a run of decimal digits, most significant first. -/
def parseDigits : List Char → Nat → Option Nat
  | [], acc => some acc
  | c :: cs, acc =>
    match digitVal c with
    | none => none
    | some d => parseDigits cs (acc * 10 + d)

/-- The function `strconv.Atoi` on a 64-bit platform: an optional sign, then at
least one decimal digit; `none` stands for a non-nil error (malformed, or out
of the 64-bit range). -/
def atoi (s : String) : Option Int :=
  match s.data with
  | [] => none
  | c :: ds =>
    if c = '-' then
      if ds = [] then none
      else match parseDigits ds 0 with
        | none => none
        | some n => if n ≤ 2 ^ 63 then some (-(n : Int)) else none
    else if c = '+' then
      if ds = [] then none
      else match parseDigits ds 0 with
        | none => none
        | some n => if n < 2 ^ 63 then some (n : Int) else none
    else
      match parseDigits (c :: ds) 0 with
      | none => none
      | some n => if n < 2 ^ 63 then some (n : Int) else none

/-- Two decimal digits, as the layout elements `15` and `04` print them. -/
def pad2 (n : Nat) : String :=
  ⟨[Nat.digitChar (n / 10 % 10), Nat.digitChar (n % 10)]⟩

/-- The call `t.Format(timeLayout)` with `timeLayout = "15:04"`. -/
def formatTime (t : Int) : String :=
  pad2 (t / 60 % 24).toNat ++ ":" ++ pad2 (t % 60).toNat

/-- Lexicographic `≤` on character lists, the order of Go strings. -/
def leChars : List Char → List Char → Bool
  | [], _ => true
  | _ :: _, [] => false
  | a :: as, b :: bs =>
    if a.toNat < b.toNat then true
    else if b.toNat < a.toNat then false
    else leChars as bs

/-- The function `sort.Strings`. -/
def sortStrings (l : List String) : List String :=
  l.insertionSort (fun a b => leChars a.data b.data = true)

/-! ## Data model -/

/-- The struct `Event`. -/
structure Event where
  Time : Int
  ID : Int
  EventBody : List String
deriving DecidableEq, Repr

/-- The struct `Table`; `OccupiedBy = ""` means the table is free. -/
structure Table where
  OccupiedBy : String
  StartTime : Int
  Revenue : Int
  OccupiedTime : Int
deriving DecidableEq, Repr

/-- The struct `Club`, with the standard output of the process as `Stdout`. -/
structure Club where
  OpenTime : Int
  CloseTime : Int
  HourPrice : Int
  Events : List Event
  Clients : AList (fun _ : String => Int)
  Queue : List String
  Tables : List Table
  Stdout : List String
deriving DecidableEq

/-- How a call ends: normally, in a run-time panic, or with the fuel of the
re-dispatch recursion used up. -/
inductive Outcome (α : Type) where
  | ok (val : α)
  | panic
  | outOfFuel
deriving DecidableEq, Repr

/-- Continues with `f` after a normal return; a panic or an exhausted fuel ends
the whole call. -/
def Outcome.bind {α β : Type} (x : Outcome α) (f : α → Outcome β) : Outcome β :=
  match x with
  | .ok val => f val
  | .panic => .panic
  | .outOfFuel => .outOfFuel

/-- Writes one line to standard output. -/
def Club.print (club : Club) (line : String) : Club :=
  { club with Stdout := club.Stdout ++ [line] }

/-- The slice index `tableNumber-1` of a table number inside `[1, len(Tables)]`. -/
def tableIndex (tableNumber : Int) : Nat := (tableNumber - 1).toNat

/-- Every Directory value is 0 or the number of an existing table. -/
def DirectoryInRange (club : Club) : Prop :=
  ∀ e ∈ club.Clients.entries, 0 ≤ e.2 ∧ e.2 ≤ (club.Tables.length : Int)

instance (club : Club) : Decidable (DirectoryInRange club) :=
  inferInstanceAs (Decidable (∀ e ∈ club.Clients.entries,
    0 ≤ e.2 ∧ e.2 ≤ (club.Tables.length : Int)))

/-- What a vacate or a seat assignment keeps: the number of tables, the close
time and the price, the range of the Directory values; and it never lengthens
the queue. -/
structure Kept (club club' : Club) : Prop where
  tables : club'.Tables.length = club.Tables.length
  closeTime : club'.CloseTime = club.CloseTime
  hourPrice : club'.HourPrice = club.HourPrice
  queue : club'.Queue.length ≤ club.Queue.length
  range : DirectoryInRange club'

/-! ## Vacate-and-bill -/

/-- Billed hours of a duration in minutes (`clientLeavesTable`, lines 234-237):
`hours := int(duration.Hours())`, one more when
`duration.Minutes() > float64(hours*60)`. -/
def billedHours (duration : Int) : Int :=
  let hours := duration.tdiv 60
  if duration > hours * 60 then hours + 1 else hours

/-- The value a 64-bit signed Go `int` holds after an arithmetic result `n`:
`n` modulo `2 ^ 64`, taken in `[-2 ^ 63, 2 ^ 63)`. -/
def wrap64 (n : Int) : Int := (n + 2 ^ 63) % 2 ^ 64 - 2 ^ 63

/-- The update of the table record in `clientLeavesTable` (lines 233-240).  The
two `+=` and the product `hours * club.HourPrice` are on Go `int`; reducing
the exact sum once gives the residue the machine reaches step by step. -/
def vacate (hourPrice : Int) (leavingTime : Int) (table : Table) : Table :=
  let duration := leavingTime - table.StartTime
  { table with
    Revenue := wrap64 (table.Revenue + billedHours duration * hourPrice)
    OccupiedTime := wrap64 (table.OccupiedTime + duration)
    OccupiedBy := "" }

/-- The method `clientLeavesTable`; `handle` is the dispatcher it re-enters to
seat the head of the queue. -/
def clientLeavesTableWith (handle : Club → Event → Outcome (String × Club))
    (club : Club) (tableNumber : Int) (leavingTime : Int) : Outcome Club :=
  if tableNumber < 1 ∨ tableNumber > club.Tables.length then .panic
  else
    let club := { club with
      Tables := club.Tables.modify (vacate club.HourPrice leavingTime) (tableIndex tableNumber) }
    match club.Queue with
    | [] => .ok club
    | nextClient :: rest =>
      if leavingTime ≠ club.CloseTime then
        (handle { club with Queue := rest }
            ⟨leavingTime, 12, [nextClient, itoa tableNumber]⟩).bind
          fun result => .ok result.2
      else .ok club

/-! ## Event handlers -/

/-- The method `clientCome`. -/
def clientCome (club : Club) (event : Event) : Outcome (String × Club) :=
  match event.EventBody with
  | [] => .panic
  | clientName :: _ =>
    let club := club.print (formatTime event.Time ++ " " ++ itoa event.ID ++ " " ++ clientName)
    match club.Clients.lookup clientName with
    | some _ => .ok (formatTime event.Time ++ " 13 YouShallNotPass", club)
    | none =>
      if event.Time < club.OpenTime ∨ event.Time > club.CloseTime then
        .ok (formatTime event.Time ++ " 13 NotOpenYet", club)
      else .ok ("", { club with Clients := club.Clients.insert clientName 0 })

/-- The method `clientTakesSeat`. -/
def clientTakesSeatWith (handle : Club → Event → Outcome (String × Club))
    (club : Club) (event : Event) : Outcome (String × Club) :=
  match event.EventBody with
  | clientName :: arg :: _ =>
    match atoi arg with
    | none => .ok (formatTime event.Time ++ " 13 IncorrectTableNumber", club)
    | some tableNumber =>
      let club := club.print (formatTime event.Time ++ " " ++ itoa event.ID ++ " "
        ++ clientName ++ " " ++ itoa tableNumber)
      if tableNumber < 1 ∨ tableNumber > club.Tables.length then
        .ok (formatTime event.Time ++ " 13 IncorrectTableNumber", club)
      else
        match club.Tables[tableIndex tableNumber]? with
        | none => .panic
        | some newTable =>
          match club.Clients.lookup clientName with
          | none => .ok (formatTime event.Time ++ " 13 ClientUnknown", club)
          | some place =>
            if newTable.OccupiedBy ≠ "" then
              .ok (formatTime event.Time ++ " 13 PlaceIsBusy", club)
            else
              (if place ≠ 0 then clientLeavesTableWith handle club place event.Time
                else .ok club).bind fun club =>
                .ok ("", { club with
                  Clients := club.Clients.insert clientName tableNumber
                  Tables := club.Tables.modify
                    (fun table => { table with OccupiedBy := clientName, StartTime := event.Time })
                    (tableIndex tableNumber) })
  | _ => .panic

/-- The method `clientWaits`. -/
def clientWaits (club : Club) (event : Event) : Outcome (String × Club) :=
  match event.EventBody with
  | [] => .panic
  | clientName :: _ =>
    let club := club.print (formatTime event.Time ++ " " ++ itoa event.ID ++ " " ++ clientName)
    match club.Clients.lookup clientName with
    | none => .ok (formatTime event.Time ++ " 13 ClientUnknown", club)
    | some _ =>
      if club.Tables.any (fun table => table.OccupiedBy = "") then
        .ok (formatTime event.Time ++ " 13 ICanWaitNoLonger!", club)
      else if club.Queue.length ≥ club.Tables.length then
        .ok (formatTime event.Time ++ " 11 " ++ clientName, club)
      else .ok ("", { club with Queue := club.Queue ++ [clientName] })

/-- The method `clientLeaves`. -/
def clientLeavesWith (handle : Club → Event → Outcome (String × Club))
    (club : Club) (event : Event) : Outcome (String × Club) :=
  match event.EventBody with
  | [] => .panic
  | clientName :: _ =>
    let club := club.print (formatTime event.Time ++ " " ++ itoa event.ID ++ " " ++ clientName)
    match club.Clients.lookup clientName with
    | none => .ok (formatTime event.Time ++ " 13 ClientUnknown", club)
    | some place =>
      (if place ≠ 0 then clientLeavesTableWith handle club place event.Time
        else .ok club).bind fun club =>
        .ok ("", { club with Clients := club.Clients.erase clientName })

/-- The method `handleEvent`, with the dispatcher used for re-dispatch as a
parameter. -/
def handleEventWith (handle : Club → Event → Outcome (String × Club))
    (club : Club) (event : Event) : Outcome (String × Club) :=
  if event.ID = 1 then clientCome club event
  else if event.ID = 2 ∨ event.ID = 12 then clientTakesSeatWith handle club event
  else if event.ID = 3 then clientWaits club event
  else if event.ID = 4 then clientLeavesWith handle club event
  else .ok (formatTime event.Time ++ " 13 IncorrectEventID", club)

/-- The dispatcher with `fuel` levels of re-dispatch available. -/
def handleEventFuel : Nat → Club → Event → Outcome (String × Club)
  | 0 => fun _ _ => .outOfFuel
  | fuel + 1 => handleEventWith (handleEventFuel fuel)

/-- The method `handleEvent`. -/
def handleEvent (club : Club) (event : Event) : Outcome (String × Club) :=
  handleEventFuel (club.Queue.length + 1) club event

/-- The method `clientLeavesTable`. -/
def clientLeavesTable (club : Club) (tableNumber : Int) (leavingTime : Int) : Outcome Club :=
  clientLeavesTableWith (handleEventFuel club.Queue.length) club tableNumber leavingTime

/-! ## Closure -/

/-- The body of the second loop of `closureProcessing`, for one client. -/
def closeClient (club : Club) (client : String) : Outcome Club :=
  let place := (club.Clients.lookup client).getD 0
  let club := club.print (formatTime club.CloseTime ++ " 11 " ++ client)
  if place ≠ 0 then clientLeavesTable club place club.CloseTime else .ok club

/-- Runs `closeClient` over the clients in order, stopping at a panic. -/
def closeClients : List String → Club → Outcome Club
  | [], club => .ok club
  | client :: rest, club =>
    (closeClient club client).bind (closeClients rest)

/-- The method `closureProcessing`. -/
def closureProcessing (club : Club) : Outcome Club :=
  closeClients (sortStrings club.Clients.keys) club

/-! ## The run -/

/-- The loop of `processEvents`: dispatches the events in order and prints every
non-empty result. -/
def runEvents : List Event → Club → Outcome Club
  | [], club => .ok club
  | event :: rest, club =>
    (handleEvent club event).bind fun result =>
      runEvents rest (if result.1 ≠ "" then result.2.print result.1 else result.2)

/-- The method `processEvents`. -/
def processEvents (club : Club) : Outcome Club :=
  (runEvents club.Events club).bind closureProcessing

/-- The verb `%02d` of `fmt`. -/
def pad2Int (n : Int) : String :=
  if 0 ≤ n ∧ n < 10 then "0" ++ itoa n else itoa n

/-- The lines of the last loop of `workReport` for the tables from index `i` on;
Go divides `OccupiedTime` by 60 with truncation. -/
def tableLines : Nat → List Table → List String
  | _, [] => []
  | i, table :: rest =>
    (itoa ((i : Int) + 1) ++ " " ++ itoa table.Revenue ++ " "
      ++ pad2Int (table.OccupiedTime.tdiv 60) ++ ":" ++ pad2Int (table.OccupiedTime.tmod 60))
      :: tableLines (i + 1) rest

/-- The method `workReport`. -/
def workReport (club : Club) : Outcome Club :=
  (processEvents (club.print (formatTime club.OpenTime))).bind fun club =>
    .ok { club with
      Stdout := club.Stdout ++ [formatTime club.CloseTime] ++ tableLines 0 club.Tables }

/-- The state `parseInput` returns: `n` zero-valued tables, the header, the
events, an empty Directory and an empty Queue. -/
def initialClub (n : Nat) (openTime closeTime hourPrice : Int) (events : List Event) : Club :=
  { OpenTime := openTime, CloseTime := closeTime, HourPrice := hourPrice, Events := events,
    Clients := ∅, Queue := [], Tables := List.replicate n ⟨"", 527040, 0, 0⟩, Stdout := [] }

/-- An event that carries the arguments its handler indexes: at least one, and
two for a seat event. -/
def WellFormedEvent (event : Event) : Prop :=
  1 ≤ event.EventBody.length ∧
    (event.ID = 2 ∨ event.ID = 12 → 2 ≤ event.EventBody.length)

instance (event : Event) : Decidable (WellFormedEvent event) :=
  inferInstanceAs (Decidable (1 ≤ event.EventBody.length ∧
    (event.ID = 2 ∨ event.ID = 12 → 2 ≤ event.EventBody.length)))

/-- The function `isValidName`: the regular expression `^[a-z0-9_-]+$`. -/
def isValidName (s : String) : Bool :=
  !s.data.isEmpty && s.data.all fun ch =>
    (97 ≤ ch.toNat && ch.toNat ≤ 122) || (48 ≤ ch.toNat && ch.toNat ≤ 57) || ch = '_' || ch = '-'

/-- An event list as `parseInput` accepts it and the spec restricts it: action
codes 1 to 4, the arguments the handler indexes, a valid client name, and
timestamps that never decrease. -/
def InputLog (events : List Event) : Prop :=
  (∀ event ∈ events, event.ID ∈ [1, 2, 3, 4] ∧ WellFormedEvent event ∧
    event.EventBody.head?.map isValidName = some true) ∧
  (events.map Event.Time).Pairwise (· ≤ ·)

instance (events : List Event) : Decidable (InputLog events) :=
  inferInstanceAs (Decidable ((∀ event ∈ events, event.ID ∈ [1, 2, 3, 4] ∧
    WellFormedEvent event ∧ event.EventBody.head?.map isValidName = some true) ∧
    (events.map Event.Time).Pairwise (· ≤ ·)))

/-- What a test reads off a final state: the occupant, revenue and occupied
minutes of every table, the queue, and the Directory as a list of pairs. -/
def Club.summary (club : Club) :
    List (String × Int × Int) × List String × List (String × Int) :=
  (club.Tables.map fun table => (table.OccupiedBy, table.Revenue, table.OccupiedTime),
   club.Queue, club.Clients.entries.map fun e => (e.1, e.2))

/-- The seven code-13 diagnostics for an event at time `t`. -/
def diagnostics (t : Int) : List String :=
  [formatTime t ++ " 13 YouShallNotPass", formatTime t ++ " 13 NotOpenYet",
   formatTime t ++ " 13 ClientUnknown", formatTime t ++ " 13 PlaceIsBusy",
   formatTime t ++ " 13 IncorrectTableNumber", formatTime t ++ " 13 ICanWaitNoLonger!",
   formatTime t ++ " 13 IncorrectEventID"]

/-- What every dispatched event keeps: the number of tables, the range of the
Directory values, and the bound of the queue by the number of tables. -/
structure Stepped (club club' : Club) : Prop where
  tables : club'.Tables.length = club.Tables.length
  range : DirectoryInRange club'
  bound : club.Queue.length ≤ club.Tables.length → club'.Queue.length ≤ club'.Tables.length

/-- The same Directory, Queue and tables. -/
def SameState (club club' : Club) : Prop :=
  club'.Clients = club.Clients ∧ club'.Queue = club.Queue ∧ club'.Tables = club.Tables

/-- The line `closureProcessing` prints for a client. -/
def closureNotice (club : Club) (client : String) : String :=
  formatTime club.CloseTime ++ " 11 " ++ client

/-! ## Concrete states used to instantiate the theorems -/

/-- A club with `n` tables that nobody has used yet; the zero `time.Time` lies
366 days after `00:00` of the day `time.Parse` puts its results in. -/
def emptyClub (n : Nat) (openTime closeTime hourPrice : Int) : Club :=
  { OpenTime := openTime, CloseTime := closeTime, HourPrice := hourPrice, Events := [],
    Clients := ∅, Queue := [], Tables := List.replicate n ⟨"", 527040, 0, 0⟩, Stdout := [] }

/-- Two tables, open `09:00`-`15:00`, price 100: `alex` sits at table 1 since
`10:20` and `rudolf` at table 2 since `10:30`. -/
def twoSeated : Club :=
  { emptyClub 2 540 900 100 with
    Clients := (AList.insert "rudolf" 2 (AList.insert "alex" 1 ∅))
    Tables := [⟨"alex", 620, 0, 0⟩, ⟨"rudolf", 630, 0, 0⟩] }

/-- The club `twoSeated` with `bob` present, unseated and waiting. -/
def twoSeatedOneWaiting : Club :=
  { twoSeated with
    Clients := AList.insert "bob" 0 twoSeated.Clients
    Queue := ["bob"] }

/-- Three tables, open `09:00`-`19:00`, price 10: `client1` sits at table 1
since `09:54`, `client2` is present and unseated, nobody waits. -/
def oneSeated : Club :=
  { emptyClub 3 540 1140 10 with
    Clients := AList.insert "client2" 0 (AList.insert "client1" 1 ∅)
    Tables := [⟨"client1", 594, 0, 0⟩, ⟨"", 527040, 0, 0⟩, ⟨"", 527040, 0, 0⟩] }

/-- The club `twoSeatedOneWaiting` with `carl` waiting behind `bob`: the queue
is as long as the number of tables. -/
def twoSeatedTwoWaiting : Club :=
  { twoSeatedOneWaiting with
    Clients := AList.insert "carl" 0 twoSeatedOneWaiting.Clients
    Queue := ["bob", "carl"] }

/-- The club `twoSeated` after `closureProcessing`: both tables billed until
`15:00` and free, both notices printed, the Directory as before. -/
def twoSeatedClosed : Club :=
  { twoSeated with
    Tables := [⟨"", 620, 500, 280⟩, ⟨"", 630, 500, 270⟩]
    Stdout := ["15:00 11 alex", "15:00 11 rudolf"] }

/-- The events of the reference scenario (`testdata/test1.txt`). -/
def referenceEvents : List Event :=
  [⟨528, 1, ["client1"]⟩, ⟨581, 1, ["client1"]⟩, ⟨588, 1, ["client2"]⟩,
   ⟨592, 3, ["client1"]⟩, ⟨594, 2, ["client1", "1"]⟩, ⟨625, 2, ["client2", "2"]⟩,
   ⟨658, 1, ["client3"]⟩, ⟨659, 2, ["client3", "3"]⟩, ⟨690, 1, ["client4"]⟩,
   ⟨695, 2, ["client4", "2"]⟩, ⟨705, 3, ["client4"]⟩, ⟨753, 4, ["client1"]⟩,
   ⟨763, 4, ["client2"]⟩, ⟨952, 4, ["client4"]⟩]

/-- The reference scenario: 3 tables, open `09:00`-`19:00`, price 10. -/
def referenceClub : Club := initialClub 3 540 1140 10 referenceEvents

/-- Two tables, open `09:00`-`19:00`: `x` and `y` sit down, `x` queues while
seated, `y` leaves exactly at the close time (no promotion), then `x` moves to
the freed table 2 half an hour later. -/
def moveWhileQueued : List Event :=
  [⟨540, 1, ["x"]⟩, ⟨540, 1, ["y"]⟩, ⟨550, 2, ["x", "1"]⟩, ⟨550, 2, ["y", "2"]⟩,
   ⟨560, 3, ["x"]⟩, ⟨1140, 4, ["y"]⟩, ⟨1170, 2, ["x", "2"]⟩]

/-- One table: `a` sits down at `09:00` and then waits at `10:00`. -/
def waitWhileSeated : List Event :=
  [⟨540, 1, ["a"]⟩, ⟨540, 2, ["a", "1"]⟩, ⟨600, 3, ["a"]⟩]

/-- One table: `a` sits, `b` arrives and waits, then `b` leaves the club. -/
def leaveWhileQueued : List Event :=
  [⟨540, 1, ["a"]⟩, ⟨540, 2, ["a", "1"]⟩, ⟨550, 1, ["b"]⟩, ⟨560, 3, ["b"]⟩, ⟨600, 4, ["b"]⟩]

/-- One table, open `09:00`-`19:00`, price 10: `a` arrives at `18:00` and sits
down at `20:00`, after the close time. -/
def seatAfterClose : List Event :=
  [⟨1080, 1, ["a"]⟩, ⟨1200, 2, ["a", "1"]⟩]

/-- One table: `a` sits down at `09:00`, waits at `10:00` and leaves the club at
`11:00`. -/
def departWhileSeatedAndQueued : List Event :=
  waitWhileSeated ++ [⟨660, 4, ["a"]⟩]

/-- One table, open `00:00`-`23:59`, price `2 ^ 62`: `a` sits at table 1 since
`00:00`, nobody waits. -/
def dearSeat : Club :=
  { emptyClub 1 0 1439 4611686018427387904 with
    Clients := AList.insert "a" 1 ∅
    Tables := [⟨"a", 0, 0, 0⟩] }

/-! ## Basic facts -/

@[simp] theorem Outcome.bind_ok {α β : Type} (val : α) (f : α → Outcome β) :
    (Outcome.ok val).bind f = f val := rfl

theorem handleEvent_eq (club : Club) (event : Event) :
    handleEvent club event =
      handleEventWith (handleEventFuel club.Queue.length) club event := rfl

theorem handleEventWith_seat (handle : Club → Event → Outcome (String × Club))
    (club : Club) (t id : Int) (body : List String) (hid : id = 2 ∨ id = 12) :
    handleEventWith handle club ⟨t, id, body⟩ = clientTakesSeatWith handle club ⟨t, id, body⟩ := by
  rcases hid with h | h <;> subst h <;> simp [handleEventWith]

theorem tableIndex_lt {n : Int} {len : Nat} (h1 : 1 ≤ n) (h2 : n ≤ len) :
    tableIndex n < len := by
  unfold tableIndex; omega

theorem tableIndex_inj {a b : Int} (ha : 1 ≤ a) (hb : 1 ≤ b)
    (h : tableIndex a = tableIndex b) : a = b := by
  unfold tableIndex at h; omega

theorem le_of_tableIndex_lt {n : Int} {len : Nat} (h : tableIndex n < len) : n ≤ len := by
  unfold tableIndex at h; omega

/-- Without a promotion (empty queue, or leaving at the close time)
`clientLeavesTable` only rewrites the record of the table. -/
theorem clientLeavesTableWith_quiet (handle : Club → Event → Outcome (String × Club))
    (club : Club) (k t : Int) (h1 : 1 ≤ k) (h2 : k ≤ club.Tables.length)
    (hq : club.Queue = [] ∨ t = club.CloseTime) :
    clientLeavesTableWith handle club k t =
      .ok { club with
        Tables := club.Tables.modify (vacate club.HourPrice t) (tableIndex k) } := by
  have hr : ¬ (k < 1 ∨ k > (club.Tables.length : Int)) := by omega
  unfold clientLeavesTableWith
  rw [if_neg hr]
  rcases hq with hq | hq
  · simp [hq]
  · cases hQ : club.Queue with
    | nil => simp
    | cons x xs => simp [hq]

/-! ## Printing and reading numbers -/

theorem digitVal_digitChar (d : Nat) (h : d < 10) : digitVal (Nat.digitChar d) = some d := by
  interval_cases d <;> rfl

theorem digitChar_not_sign (d : Nat) (h : d < 10) :
    Nat.digitChar d ≠ '-' ∧ Nat.digitChar d ≠ '+' := by
  interval_cases d <;> decide

theorem parseDigits_append (xs ys : List Char) (acc : Nat) :
    parseDigits (xs ++ ys) acc = (parseDigits xs acc).bind (parseDigits ys) := by
  induction xs generalizing acc with
  | nil => simp [parseDigits]
  | cons x xs ih =>
    simp only [List.cons_append, parseDigits]
    cases digitVal x with
    | none => simp
    | some d => simp [ih]

theorem parseDigits_digitsFuel (fuel n : Nat) (h : n < fuel) :
    parseDigits (digitsFuel fuel n) 0 = some n := by
  induction fuel generalizing n with
  | zero => omega
  | succ f ih =>
    unfold digitsFuel
    split
    · rename_i hn
      simp [parseDigits, digitVal_digitChar n hn]
    · rename_i hn
      rw [parseDigits_append, ih (n / 10) (by omega)]
      simp [parseDigits, digitVal_digitChar (n % 10) (by omega)]
      omega

theorem digitsFuel_head (fuel n : Nat) (h : n < fuel) :
    ∃ d ds, d < 10 ∧ digitsFuel fuel n = Nat.digitChar d :: ds := by
  induction fuel generalizing n with
  | zero => omega
  | succ f ih =>
    unfold digitsFuel
    split
    · rename_i hn
      exact ⟨n, [], hn, rfl⟩
    · obtain ⟨d, ds, hd, hds⟩ := ih (n / 10) (by omega)
      exact ⟨d, ds ++ [Nat.digitChar (n % 10)], hd, by rw [hds]; rfl⟩

/-- Reading back a printed table number gives the number. -/
theorem atoi_itoa (n : Int) (h0 : 0 ≤ n) (h1 : n < 2 ^ 63) : atoi (itoa n) = some n := by
  obtain ⟨d, ds, hd, hds⟩ := digitsFuel_head (n.natAbs + 1) n.natAbs (by omega)
  have hp := parseDigits_digitsFuel (n.natAbs + 1) n.natAbs (by omega)
  have hneg : ¬ n < 0 := by omega
  obtain ⟨hm, hpl⟩ := digitChar_not_sign d hd
  have hlt : n.natAbs < 2 ^ 63 := by omega
  unfold atoi itoa
  rw [if_neg hneg]
  simp only [hds]
  rw [if_neg hm, if_neg hpl, ← hds, hp]
  simp only [hlt, if_true]
  congr 1
  omega


theorem directoryInRange_iff (club : Club) :
    DirectoryInRange club ↔
      ∀ c p, club.Clients.lookup c = some p → 0 ≤ p ∧ p ≤ (club.Tables.length : Int) := by
  constructor
  · intro h c p hp
    exact h ⟨c, p⟩ (AList.mem_lookup_iff.mp hp)
  · rintro h ⟨c, p⟩ he
    exact h c p (AList.mem_lookup_iff.mpr he)

theorem directoryInRange_insert (c : String) (k : Int)
    (clients : AList (fun _ : String => Int)) (tables : List Table)
    (hk0 : 0 ≤ k) (hk : k ≤ (tables.length : Int))
    (h : ∀ c p, clients.lookup c = some p → 0 ≤ p ∧ p ≤ (tables.length : Int)) :
    ∀ c' p, (clients.insert c k).lookup c' = some p → 0 ≤ p ∧ p ≤ (tables.length : Int) := by
  intro c' p hp
  by_cases hc : c' = c
  · subst hc
    rw [AList.lookup_insert] at hp
    cases hp
    exact ⟨hk0, hk⟩
  · rw [AList.lookup_insert_ne hc] at hp
    exact h c' p hp

theorem seat_total (handle : Club → Event → Outcome (String × Club)) (club : Club)
    (t id : Int) (c : String) (k : Int) (hin : DirectoryInRange club)
    (hN : (club.Tables.length : Int) < 2 ^ 63) (hk1 : 1 ≤ k) (hk2 : k ≤ club.Tables.length)
    (hrec : ∀ (club₁ : Club) (p : Int), club₁.Clients = club.Clients →
      club₁.Tables = club.Tables → club₁.Queue = club.Queue →
      club₁.CloseTime = club.CloseTime → club₁.HourPrice = club.HourPrice → 1 ≤ p →
      p ≤ club.Tables.length →
      ∃ club', clientLeavesTableWith handle club₁ p t = .ok club' ∧ Kept club club') :
    ∃ msg club', clientTakesSeatWith handle club ⟨t, id, [c, itoa k]⟩ = .ok (msg, club') ∧
      Kept club club' := by
  have hr : ¬ (k < 1 ∨ k > (club.Tables.length : Int)) := by omega
  have hlt := tableIndex_lt hk1 hk2
  have hkept : Kept club (club.print (formatTime t ++ " " ++ itoa id ++ " " ++ c ++ " "
      ++ itoa k)) := ⟨rfl, rfl, rfl, le_refl _, hin⟩
  simp only [clientTakesSeatWith, atoi_itoa k (by omega) (by omega)]
  simp only [Club.print, hr, if_false, List.getElem?_eq_getElem hlt]
  cases hc : club.Clients.lookup c with
  | none => exact ⟨_, _, rfl, hkept⟩
  | some p =>
    simp only []
    split
    · exact ⟨_, _, rfl, hkept⟩
    · by_cases hp : p = 0
      · subst hp
        simp only [ne_eq, not_true_eq_false, if_false]
        refine ⟨_, _, rfl, ?_, rfl, rfl, le_refl _, ?_⟩
        · simp
        · rw [directoryInRange_iff]
          simp only [List.length_modify]
          exact directoryInRange_insert c k _ _ (by omega) hk2
            ((directoryInRange_iff club).mp hin)
      · have hpr := (directoryInRange_iff club).mp hin c p hc
        obtain ⟨club', hok, hk'⟩ := hrec { club with Stdout := club.Stdout ++
          [formatTime t ++ " " ++ itoa id ++ " " ++ c ++ " " ++ itoa k] } p rfl rfl rfl rfl rfl
          (by omega) hpr.2
        simp only [ne_eq, hp, not_false_eq_true, if_true, hok]
        refine ⟨_, _, rfl, ?_, hk'.closeTime, hk'.hourPrice, hk'.queue, ?_⟩
        · simp [hk'.tables]
        · rw [directoryInRange_iff]
          simp only [List.length_modify]
          exact directoryInRange_insert c k _ _ (by omega) (by rw [hk'.tables]; exact hk2)
            ((directoryInRange_iff club').mp hk'.range)


theorem Kept.of_fields {club₀ club₁ club' : Club} (h : Kept club₁ club')
    (ht : club₁.Tables.length = club₀.Tables.length) (hc : club₁.CloseTime = club₀.CloseTime)
    (hp : club₁.HourPrice = club₀.HourPrice) (hq : club₁.Queue.length ≤ club₀.Queue.length) :
    Kept club₀ club' :=
  ⟨h.tables.trans ht, h.closeTime.trans hc, h.hourPrice.trans hp, le_trans h.queue hq, h.range⟩

theorem directoryInRange_of_fields {club₀ club₁ : Club} (h : DirectoryInRange club₀)
    (hc : club₁.Clients = club₀.Clients) (ht : club₁.Tables.length = club₀.Tables.length) :
    DirectoryInRange club₁ := by
  unfold DirectoryInRange at *
  rw [hc, ht]
  exact h

/-- With a queue `h :: rest` and a leaving time other than the close time,
`clientLeavesTable` re-dispatches a seat assignment of `h` at the vacated table. -/
theorem clientLeavesTableWith_promote (handle : Club → Event → Outcome (String × Club))
    (club : Club) (k t : Int) (h : String) (rest : List String)
    (h1 : 1 ≤ k) (h2 : k ≤ club.Tables.length) (hQ : club.Queue = h :: rest)
    (ht : t ≠ club.CloseTime) :
    clientLeavesTableWith handle club k t =
      (handle { club with
          Tables := club.Tables.modify (vacate club.HourPrice t) (tableIndex k)
          Queue := rest } ⟨t, 12, [h, itoa k]⟩).bind fun result => .ok result.2 := by
  have hr : ¬ (k < 1 ∨ k > (club.Tables.length : Int)) := by omega
  unfold clientLeavesTableWith
  rw [if_neg hr]
  simp [hQ, ht]

/-- With fuel for every queued client, `clientLeavesTable` on an existing table
returns normally. -/
theorem clientLeavesTableWith_total (n : Nat) :
    ∀ (club : Club) (k t : Int), club.Queue.length ≤ n → DirectoryInRange club →
      (club.Tables.length : Int) < 2 ^ 63 → 1 ≤ k → k ≤ club.Tables.length →
      ∃ club', clientLeavesTableWith (handleEventFuel n) club k t = .ok club' ∧
        Kept club club' := by
  induction n with
  | zero =>
    intro club k t hq hin _ hk1 hk2
    have hnil : club.Queue = [] := List.length_eq_zero.mp (by omega)
    rw [clientLeavesTableWith_quiet _ club k t hk1 hk2 (Or.inl hnil)]
    exact ⟨_, rfl, by simp, rfl, rfl, le_refl _,
      directoryInRange_of_fields hin rfl (by simp)⟩
  | succ m ih =>
    intro club k t hq hin hN hk1 hk2
    by_cases hquiet : club.Queue = [] ∨ t = club.CloseTime
    · rw [clientLeavesTableWith_quiet _ club k t hk1 hk2 hquiet]
      exact ⟨_, rfl, by simp, rfl, rfl, le_refl _,
        directoryInRange_of_fields hin rfl (by simp)⟩
    · have hclose : t ≠ club.CloseTime := fun h => hquiet (Or.inr h)
      obtain ⟨h, rest, hQ⟩ := List.exists_cons_of_ne_nil (fun h => hquiet (Or.inl h))
      have hlen : rest.length ≤ m := by rw [hQ] at hq; simpa using hq
      obtain ⟨msg, club', hok, hk'⟩ := seat_total (handleEventFuel m)
        { club with
          Tables := club.Tables.modify (vacate club.HourPrice t) (tableIndex k)
          Queue := rest } t 12 h k
        (directoryInRange_of_fields hin rfl (by simp)) (by simpa using hN) hk1
        (by simpa using hk2)
        (fun club₁ p hc ht hq' hct hhp hp1 hp2 => by
          obtain ⟨club'', hok, hk''⟩ := ih club₁ p t (by rw [hq']; exact hlen)
            (directoryInRange_of_fields hin hc (by rw [ht]; simp))
            (by rw [ht]; simpa using hN) hp1 (by rw [ht]; exact hp2)
          exact ⟨club'', hok, hk''.of_fields (by rw [ht]) hct hhp (by rw [hq'])⟩)
      have hdisp : handleEventFuel (m + 1) = handleEventWith (handleEventFuel m) := rfl
      rw [clientLeavesTableWith_promote _ club k t h rest hk1 hk2 hQ hclose, hdisp,
        handleEventWith_seat _ _ _ _ _ (Or.inr rfl), hok]
      exact ⟨club', rfl, hk'.of_fields (by simp) rfl rfl (by simp [hQ])⟩

/-! ## Billed hours -/

/-- The billed hours `h` of a duration of `d` minutes satisfy
`60 (h - 1) < d ≤ 60 h`. -/
theorem billedHours_bounds (d : Int) :
    60 * (billedHours d - 1) < d ∧ d ≤ 60 * billedHours d := by
  unfold billedHours
  rcases le_or_lt 0 d with h | h
  · have e : d.tdiv 60 = d / 60 := Int.tdiv_eq_ediv h (by decide)
    simp only [e]
    split <;> omega
  · have e : d.tdiv 60 = -((-d) / 60) := by
      rw [← Int.tdiv_eq_ediv (by omega) (by decide), Int.neg_tdiv, neg_neg]
    simp only [e]
    split <;> omega

theorem billedHours_eq_ceil (d : Int) : billedHours d = ⌈(d : ℚ) / 60⌉ := by
  obtain ⟨h1, h2⟩ := billedHours_bounds d
  symm
  rw [Int.ceil_eq_iff]
  constructor
  · rw [lt_div_iff₀ (by norm_num)]
    have : ((60 * (billedHours d - 1) : Int) : ℚ) < (d : ℚ) := by exact_mod_cast h1
    push_cast at this
    linarith
  · rw [div_le_iff₀ (by norm_num)]
    have : ((d : Int) : ℚ) ≤ ((60 * billedHours d : Int) : ℚ) := by exact_mod_cast h2
    push_cast at this
    linarith

/-- An `int` result inside the 64-bit range is stored as it is. -/
theorem wrap64_of_range (n : Int) (h0 : -2 ^ 63 ≤ n) (h1 : n < 2 ^ 63) : wrap64 n = n := by
  unfold wrap64
  norm_num at h0 h1 ⊢
  rw [Int.emod_eq_of_lt (by omega) (by omega)]
  omega

/-! ## Sorting client names -/

theorem char_lt_iff (a b : Char) : a < b ↔ a.toNat < b.toNat := Iff.rfl

theorem char_eq_of_toNat (a b : Char) (h1 : ¬ a.toNat < b.toNat) (h2 : ¬ b.toNat < a.toNat) :
    a = b := by
  apply Char.ext
  apply UInt32.ext
  show a.toNat = b.toNat
  omega

theorem leChars_iff (as bs : List Char) :
    leChars as bs = true ↔ ¬ List.Lex (· < ·) bs as := by
  induction as generalizing bs with
  | nil => simp [leChars]
  | cons a as ih =>
    cases bs with
    | nil => simp [leChars, List.Lex.nil]
    | cons b bs =>
      unfold leChars
      by_cases h1 : a.toNat < b.toNat
      · simp only [h1, if_true, true_iff]
        intro h
        cases h with
        | cons h => omega
        | rel h => exact absurd ((char_lt_iff b a).mp h) (by omega)
      · by_cases h2 : b.toNat < a.toNat
        · simp only [h1, h2, if_true, if_false, Bool.false_eq_true, false_iff, not_not]
          exact List.Lex.rel ((char_lt_iff b a).mpr h2)
        · have e := char_eq_of_toNat a b h1 h2
          subst e
          simp only [h1, if_false, ih bs]
          exact not_congr List.Lex.cons_iff.symm

theorem leChars_iff_le (a b : String) : leChars a.data b.data = true ↔ a ≤ b := by
  rw [leChars_iff, ← not_lt, String.lt_iff_toList_lt]
  rfl

theorem sortStrings_perm (l : List String) : (sortStrings l).Perm l :=
  List.perm_insertionSort _ l

theorem sortStrings_sorted (l : List String) : (sortStrings l).Sorted (· ≤ ·) := by
  haveI : IsTotal String (fun a b => leChars a.data b.data = true) :=
    ⟨fun a b => by simpa only [leChars_iff_le] using le_total a b⟩
  haveI : IsTrans String (fun a b => leChars a.data b.data = true) :=
    ⟨fun a b c => by simpa only [leChars_iff_le] using (le_trans : a ≤ b → b ≤ c → a ≤ c)⟩
  have h := List.sorted_insertionSort (fun a b : String => leChars a.data b.data = true) l
  exact h.imp (fun {a b} hab => (leChars_iff_le a b).mp hab)

theorem sortStrings_strict (l : List String) (hl : l.Nodup) :
    (sortStrings l).Pairwise (· < ·) :=
  (sortStrings_sorted l).lt_of_le ((sortStrings_perm l).nodup_iff.mpr hl)

/-! ## The closure loop -/

theorem closeClient_spec (club : Club) (client : String) (hin : DirectoryInRange club) :
    ∃ club', closeClient club client = .ok club' ∧ club'.Clients = club.Clients ∧
      club'.Queue = club.Queue ∧ club'.CloseTime = club.CloseTime ∧
      club'.Tables.length = club.Tables.length ∧
      club'.Stdout = club.Stdout ++ [closureNotice club client] ∧
      ((club.Clients.lookup client).getD 0 = 0 → club'.Tables = club.Tables) := by
  unfold closeClient
  by_cases hp : (club.Clients.lookup client).getD 0 = 0
  · simp only [hp, ne_eq, not_true_eq_false, if_false]
    exact ⟨_, rfl, rfl, rfl, rfl, rfl, rfl, fun _ => rfl⟩
  · simp only [ne_eq, hp, not_false_eq_true, if_true]
    obtain ⟨p, hlook⟩ : ∃ p, club.Clients.lookup client = some p := by
      cases h : club.Clients.lookup client with
      | none => simp [h] at hp
      | some p => exact ⟨p, rfl⟩
    have hr := (directoryInRange_iff club).mp hin client p hlook
    have hp0 : p ≠ 0 := by simpa [hlook] using hp
    simp only [hlook, Option.getD_some]
    unfold clientLeavesTable
    rw [clientLeavesTableWith_quiet _ _ p _ (by omega) (by simpa [Club.print] using hr.2)
      (Or.inr rfl)]
    refine ⟨_, rfl, rfl, rfl, rfl, ?_, rfl, ?_⟩
    · simp [Club.print]
    · intro h
      exact absurd h (by simp)

theorem closeClients_spec (l : List String) :
    ∀ club : Club, DirectoryInRange club →
      ∃ club', closeClients l club = .ok club' ∧ club'.Clients = club.Clients ∧
        club'.Queue = club.Queue ∧ club'.CloseTime = club.CloseTime ∧
        club'.Tables.length = club.Tables.length ∧
        club'.Stdout = club.Stdout ++ l.map (closureNotice club) ∧
        ((∀ c ∈ l, (club.Clients.lookup c).getD 0 = 0) → club'.Tables = club.Tables) := by
  induction l with
  | nil =>
    intro club _
    exact ⟨club, rfl, rfl, rfl, rfl, rfl, by simp, fun _ => rfl⟩
  | cons c l ih =>
    intro club hin
    obtain ⟨club₁, h1, hc1, hq1, ht1, hl1, hs1, htab1⟩ := closeClient_spec club c hin
    obtain ⟨club₂, h2, hc2, hq2, ht2, hl2, hs2, htab2⟩ :=
      ih club₁ (directoryInRange_of_fields hin hc1 hl1)
    refine ⟨club₂, ?_, hc2.trans hc1, hq2.trans hq1, ht2.trans ht1, hl2.trans hl1, ?_, ?_⟩
    · simp only [closeClients, h1, Outcome.bind_ok, h2]
    · rw [hs2, hs1]
      simp [closureNotice, ht1]
    · intro hall
      rw [htab2 (fun x hx => by rw [hc1]; exact hall x (List.mem_cons_of_mem _ hx)),
        htab1 (hall c (List.mem_cons_self _ _))]

/-! ## Fuel of the re-dispatch -/

theorem Outcome.bind_ne_outOfFuel {α β : Type} (x : Outcome α) (f : α → Outcome β)
    (hx : x ≠ .outOfFuel) (hf : ∀ val, f val ≠ .outOfFuel) : x.bind f ≠ .outOfFuel := by
  cases x with
  | ok val => exact hf val
  | panic => simp [Outcome.bind]
  | outOfFuel => exact absurd rfl hx

/-- `clientLeavesTable` calls the dispatcher only on a state with a shorter
queue, so two dispatchers that agree on such states give the same result. -/
theorem clientLeavesTableWith_congr (h₁ h₂ : Club → Event → Outcome (String × Club))
    (club : Club) (k t : Int)
    (H : ∀ club' event, club'.Queue.length < club.Queue.length →
      h₁ club' event = h₂ club' event) :
    clientLeavesTableWith h₁ club k t = clientLeavesTableWith h₂ club k t := by
  unfold clientLeavesTableWith
  split
  · rfl
  · cases hQ : club.Queue with
    | nil => simp
    | cons next rest =>
      simp only []
      split
      · rw [H _ _ (by simp [hQ])]
      · rfl

theorem clientLeavesTableWith_ne_outOfFuel (h : Club → Event → Outcome (String × Club))
    (club : Club) (k t : Int)
    (H : ∀ club' event, club'.Queue.length < club.Queue.length → h club' event ≠ .outOfFuel) :
    clientLeavesTableWith h club k t ≠ .outOfFuel := by
  unfold clientLeavesTableWith
  split
  · simp
  · cases hQ : club.Queue with
    | nil => simp
    | cons next rest =>
      simp only []
      split
      · exact Outcome.bind_ne_outOfFuel _ _ (H _ _ (by simp [hQ])) (by simp)
      · simp

theorem handleEventWith_congr (h₁ h₂ : Club → Event → Outcome (String × Club))
    (club : Club) (event : Event)
    (H : ∀ club' event', club'.Queue.length < club.Queue.length →
      h₁ club' event' = h₂ club' event') :
    handleEventWith h₁ club event = handleEventWith h₂ club event := by
  have hleave : ∀ (line : String) (k t : Int),
      clientLeavesTableWith h₁ (club.print line) k t =
        clientLeavesTableWith h₂ (club.print line) k t :=
    fun line k t => clientLeavesTableWith_congr h₁ h₂ _ k t H
  unfold handleEventWith clientTakesSeatWith clientLeavesWith
  simp only [hleave]

theorem clientCome_ne_outOfFuel (club : Club) (event : Event) :
    clientCome club event ≠ .outOfFuel := by
  unfold clientCome
  cases event.EventBody with
  | nil => simp
  | cons c rest =>
    simp only [Club.print]
    cases club.Clients.lookup c with
    | some p => simp
    | none => simp only []; split <;> simp

theorem clientWaits_ne_outOfFuel (club : Club) (event : Event) :
    clientWaits club event ≠ .outOfFuel := by
  unfold clientWaits
  cases event.EventBody with
  | nil => simp
  | cons c rest =>
    simp only [Club.print]
    cases club.Clients.lookup c with
    | none => simp
    | some p => simp only []; split <;> [simp; (split <;> simp)]

theorem leaveIfSeated_ne_outOfFuel (h : Club → Event → Outcome (String × Club))
    (club : Club) (p t : Int) (f : Club → Outcome (String × Club))
    (H : ∀ club' event', club'.Queue.length < club.Queue.length →
      h club' event' ≠ .outOfFuel) (hf : ∀ c, f c ≠ .outOfFuel) :
    (if p ≠ 0 then clientLeavesTableWith h club p t else .ok club).bind f ≠ .outOfFuel := by
  apply Outcome.bind_ne_outOfFuel _ _ _ hf
  split
  · exact clientLeavesTableWith_ne_outOfFuel h club p t H
  · simp

theorem clientLeavesWith_ne_outOfFuel (h : Club → Event → Outcome (String × Club))
    (club : Club) (event : Event)
    (H : ∀ club' event', club'.Queue.length < club.Queue.length →
      h club' event' ≠ .outOfFuel) :
    clientLeavesWith h club event ≠ .outOfFuel := by
  unfold clientLeavesWith
  cases event.EventBody with
  | nil => simp
  | cons c rest =>
    simp only []
    cases (club.print (formatTime event.Time ++ " " ++ itoa event.ID ++ " " ++ c)).Clients.lookup
      c with
    | none => simp
    | some p => exact leaveIfSeated_ne_outOfFuel h _ p _ _ H (by simp)

theorem clientTakesSeatWith_ne_outOfFuel (h : Club → Event → Outcome (String × Club))
    (club : Club) (event : Event)
    (H : ∀ club' event', club'.Queue.length < club.Queue.length →
      h club' event' ≠ .outOfFuel) :
    clientTakesSeatWith h club event ≠ .outOfFuel := by
  unfold clientTakesSeatWith
  split
  · rename_i c arg rest _
    cases atoi arg with
    | none => simp
    | some n =>
      simp only []
      split
      · simp
      · cases (club.print (formatTime event.Time ++ " " ++ itoa event.ID ++ " " ++ c ++ " "
          ++ itoa n)).Tables[tableIndex n]? with
        | none => simp
        | some newTable =>
          simp only []
          cases (club.print (formatTime event.Time ++ " " ++ itoa event.ID ++ " " ++ c ++ " "
            ++ itoa n)).Clients.lookup c with
          | none => simp
          | some p =>
            simp only []
            split
            · simp
            · exact leaveIfSeated_ne_outOfFuel h _ p _ _ H (by simp)
  · simp

theorem handleEventWith_ne_outOfFuel (h : Club → Event → Outcome (String × Club))
    (club : Club) (event : Event)
    (H : ∀ club' event', club'.Queue.length < club.Queue.length →
      h club' event' ≠ .outOfFuel) :
    handleEventWith h club event ≠ .outOfFuel := by
  unfold handleEventWith
  split
  · exact clientCome_ne_outOfFuel club event
  · split
    · exact clientTakesSeatWith_ne_outOfFuel h club event H
    · split
      · exact clientWaits_ne_outOfFuel club event
      · split
        · exact clientLeavesWith_ne_outOfFuel h club event H
        · simp

/-- The fuel `Queue.length + 1` is enough: more fuel gives the same result, and
the result is never `outOfFuel`. -/
theorem handleEventFuel_stable (n : Nat) :
    ∀ (club : Club) (event : Event) (m : Nat), club.Queue.length < n → n ≤ m →
      handleEventFuel m club event = handleEventFuel n club event ∧
      handleEventFuel n club event ≠ .outOfFuel := by
  induction n with
  | zero => intro club event m h; omega
  | succ k ih =>
    intro club event m hq hm
    obtain ⟨j, rfl⟩ : ∃ j, m = j + 1 := ⟨m - 1, by omega⟩
    constructor
    · exact handleEventWith_congr _ _ club event
        (fun club' event' hlt => (ih club' event' j (by omega) (by omega)).1)
    · exact handleEventWith_ne_outOfFuel _ club event
        (fun club' event' hlt => (ih club' event' k (by omega) (le_refl _)).2)

theorem handleEvent_ne_outOfFuel (club : Club) (event : Event) :
    handleEvent club event ≠ .outOfFuel :=
  (handleEventFuel_stable _ club event _ (Nat.lt_succ_self _) (le_refl _)).2

/-! ## Arrival -/

/-- Claim C1: an arrival of `c` at time `t` is refused with `YouShallNotPass`
when `c` already has a Directory entry, whatever `t` is; otherwise with
`NotOpenYet` when `t` is strictly before the open time or strictly after the
close time; otherwise it returns no message and only adds the entry `c ↦ 0`.
With `OpenTime ≤ CloseTime`, arrivals exactly at the open time and exactly at
the close time are accepted. -/
theorem arrival_contract (club : Club) (t : Int) (c : String) (rest : List String) :
    (c ∈ club.Clients →
      handleEvent club ⟨t, 1, c :: rest⟩ =
        .ok (formatTime t ++ " 13 YouShallNotPass",
          club.print (formatTime t ++ " " ++ itoa 1 ++ " " ++ c))) ∧
    (c ∉ club.Clients → t < club.OpenTime ∨ club.CloseTime < t →
      handleEvent club ⟨t, 1, c :: rest⟩ =
        .ok (formatTime t ++ " 13 NotOpenYet",
          club.print (formatTime t ++ " " ++ itoa 1 ++ " " ++ c))) ∧
    (c ∉ club.Clients → club.OpenTime ≤ t → t ≤ club.CloseTime →
      handleEvent club ⟨t, 1, c :: rest⟩ =
        .ok ("", { club.print (formatTime t ++ " " ++ itoa 1 ++ " " ++ c) with
                   Clients := club.Clients.insert c 0 })) ∧
    (c ∉ club.Clients → club.OpenTime ≤ club.CloseTime →
      handleEvent club ⟨club.OpenTime, 1, c :: rest⟩ =
        .ok ("", { club.print (formatTime club.OpenTime ++ " " ++ itoa 1 ++ " " ++ c) with
                   Clients := club.Clients.insert c 0 }) ∧
      handleEvent club ⟨club.CloseTime, 1, c :: rest⟩ =
        .ok ("", { club.print (formatTime club.CloseTime ++ " " ++ itoa 1 ++ " " ++ c) with
                   Clients := club.Clients.insert c 0 })) := by
  have accepted : ∀ u : Int, c ∉ club.Clients → club.OpenTime ≤ u → u ≤ club.CloseTime →
      handleEvent club ⟨u, 1, c :: rest⟩ =
        .ok ("", { club.print (formatTime u ++ " " ++ itoa 1 ++ " " ++ c) with
                   Clients := club.Clients.insert c 0 }) := by
    intro u h h1 h2
    have hn := AList.lookup_eq_none.mpr h
    have : ¬ (u < club.OpenTime ∨ club.CloseTime < u) := by omega
    simp [handleEvent_eq, handleEventWith, clientCome, Club.print, hn, this]
  refine ⟨fun h => ?_, fun h ht => ?_, accepted t, fun h hoc => ?_⟩
  · obtain ⟨p, hp⟩ := Option.isSome_iff_exists.mp (AList.lookup_isSome.mpr h)
    simp [handleEvent_eq, handleEventWith, clientCome, Club.print, hp]
  · have hn := AList.lookup_eq_none.mpr h
    simp [handleEvent_eq, handleEventWith, clientCome, Club.print, hn, ht]
  · exact ⟨accepted _ h (le_refl _) hoc, accepted _ h hoc (le_refl _)⟩

theorem arrival_contract_witness :
    handleEvent twoSeated ⟨700, 1, ["alex"]⟩ =
      .ok ("11:40 13 YouShallNotPass", twoSeated.print "11:40 1 alex") ∧
    handleEvent (emptyClub 3 540 1140 10) ⟨528, 1, ["client1"]⟩ =
      .ok ("08:48 13 NotOpenYet", (emptyClub 3 540 1140 10).print "08:48 1 client1") ∧
    handleEvent (emptyClub 3 540 1140 10) ⟨581, 1, ["client1"]⟩ =
      .ok ("", { (emptyClub 3 540 1140 10).print "09:41 1 client1" with
                 Clients := AList.insert "client1" 0 ∅ }) ∧
    handleEvent (emptyClub 3 540 1140 10) ⟨1140, 1, ["client1"]⟩ =
      .ok ("", { (emptyClub 3 540 1140 10).print "19:00 1 client1" with
                 Clients := AList.insert "client1" 0 ∅ }) :=
  ⟨(arrival_contract twoSeated 700 "alex" []).1 (AList.lookup_isSome.mp (by rfl)),
   (arrival_contract (emptyClub 3 540 1140 10) 528 "client1" []).2.1
      (AList.lookup_eq_none.mp rfl) (Or.inl (by decide)),
   (arrival_contract (emptyClub 3 540 1140 10) 581 "client1" []).2.2.1
      (AList.lookup_eq_none.mp rfl) (by decide) (by decide),
   ((arrival_contract (emptyClub 3 540 1140 10) 0 "client1" []).2.2.2
      (AList.lookup_eq_none.mp rfl) (by decide)).2⟩

/-! ## Seat assignment -/

/-- Claim C2: a seat event (code 2 or 12) of client `c` with slot argument `s`
is refused with `IncorrectTableNumber` when `s` is not an integer or lies
outside `[1, N]`, otherwise with `ClientUnknown` when `c` has no Directory
entry, otherwise with `PlaceIsBusy` when the slot is occupied, by `c` or by
anybody else; in each case the Directory, the Queue and all tables are as
before (only the echo line is added to the output). -/
theorem seat_failures (club : Club) (t id : Int) (c s : String) (rest : List String)
    (hid : id = 2 ∨ id = 12) :
    (atoi s = none →
      handleEvent club ⟨t, id, c :: s :: rest⟩ =
        .ok (formatTime t ++ " 13 IncorrectTableNumber", club)) ∧
    (∀ n : Int, atoi s = some n →
      (n < 1 ∨ (club.Tables.length : Int) < n →
        handleEvent club ⟨t, id, c :: s :: rest⟩ =
          .ok (formatTime t ++ " 13 IncorrectTableNumber",
            club.print (formatTime t ++ " " ++ itoa id ++ " " ++ c ++ " " ++ itoa n))) ∧
      (1 ≤ n → n ≤ club.Tables.length → c ∉ club.Clients →
        handleEvent club ⟨t, id, c :: s :: rest⟩ =
          .ok (formatTime t ++ " 13 ClientUnknown",
            club.print (formatTime t ++ " " ++ itoa id ++ " " ++ c ++ " " ++ itoa n))) ∧
      (∀ table : Table, 1 ≤ n → c ∈ club.Clients →
        club.Tables[tableIndex n]? = some table → table.OccupiedBy ≠ "" →
        handleEvent club ⟨t, id, c :: s :: rest⟩ =
          .ok (formatTime t ++ " 13 PlaceIsBusy",
            club.print (formatTime t ++ " " ++ itoa id ++ " " ++ c ++ " " ++ itoa n)))) := by
  rw [handleEvent_eq, handleEventWith_seat _ _ _ _ _ hid]
  refine ⟨fun h => ?_, fun n hn => ⟨fun hr => ?_, fun h1 h2 hc => ?_, fun table h1 hc htab hocc => ?_⟩⟩
  · simp [clientTakesSeatWith, h]
  · have : n < 1 ∨ n > (club.Tables.length : Int) := hr
    simp [clientTakesSeatWith, hn, Club.print, this]
  · have hr : ¬ (n < 1 ∨ n > (club.Tables.length : Int)) := by omega
    have hlook := AList.lookup_eq_none.mpr hc
    have hlt : tableIndex n < club.Tables.length := by unfold tableIndex; omega
    simp [clientTakesSeatWith, hn, Club.print, hr, hlook, List.getElem?_eq_getElem hlt]
  · obtain ⟨p, hp⟩ := Option.isSome_iff_exists.mp (AList.lookup_isSome.mpr hc)
    have hlt : tableIndex n < club.Tables.length := by
      rcases List.getElem?_eq_some.mp htab with ⟨h, _⟩
      exact h
    have hr : ¬ (n < 1 ∨ n > (club.Tables.length : Int)) := by unfold tableIndex at hlt; omega
    simp [clientTakesSeatWith, hn, Club.print, hr, hp, htab, hocc]

theorem seat_failures_witness :
    handleEvent twoSeated ⟨660, 2, ["alex", "x1"]⟩ =
      .ok ("11:00 13 IncorrectTableNumber", twoSeated) ∧
    handleEvent twoSeated ⟨660, 2, ["alex", "3"]⟩ =
      .ok ("11:00 13 IncorrectTableNumber", twoSeated.print "11:00 2 alex 3") ∧
    handleEvent twoSeated ⟨660, 2, ["anton", "1"]⟩ =
      .ok ("11:00 13 ClientUnknown", twoSeated.print "11:00 2 anton 1") ∧
    handleEvent twoSeated ⟨660, 12, ["rudolf", "1"]⟩ =
      .ok ("11:00 13 PlaceIsBusy", twoSeated.print "11:00 12 rudolf 1") :=
  ⟨(seat_failures twoSeated 660 2 "alex" "x1" [] (Or.inl rfl)).1 rfl,
   ((seat_failures twoSeated 660 2 "alex" "3" [] (Or.inl rfl)).2 3 rfl).1 (Or.inr (by decide)),
   ((seat_failures twoSeated 660 2 "anton" "1" [] (Or.inl rfl)).2 1 rfl).2.1 (by decide)
      (by decide) (AList.lookup_eq_none.mp rfl),
   ((seat_failures twoSeated 660 12 "rudolf" "1" [] (Or.inr rfl)).2 1 rfl).2.2
      ⟨"alex", 620, 0, 0⟩ (by decide) (AList.lookup_isSome.mp (by rfl)) rfl (by decide)⟩

/-- Claim C3: with an empty queue, a seat event of a present client `c` for a
free slot `b` in `[1, N]` returns no message and leaves `Directory[c] = b` and
slot `b` with occupant `c` and session start `t`.  If `c` was unseated no other
slot changes; if `c` was registered at another slot `a`, slot `a` becomes free
and its revenue and occupied minutes grow by the amounts billed for the
session `[start_a, t]` (added as Go adds to an `int`), and no slot other than
`a` and `b` changes. -/
theorem seat_success (club : Club) (t id : Int) (c s : String) (rest : List String)
    (a b : Int) (tb : Table) (hid : id = 2 ∨ id = 12) (hq : club.Queue = [])
    (hs : atoi s = some b) (hc : club.Clients.lookup c = some a) (hb : 1 ≤ b)
    (htb : club.Tables[tableIndex b]? = some tb) (hfree : tb.OccupiedBy = "") :
    (a = 0 → ∃ club', handleEvent club ⟨t, id, c :: s :: rest⟩ = .ok ("", club') ∧
      club'.Clients = club.Clients.insert c b ∧ club'.Clients.lookup c = some b ∧
      club'.Queue = [] ∧
      club'.Tables[tableIndex b]? = some { tb with OccupiedBy := c, StartTime := t } ∧
      ∀ i, i ≠ tableIndex b → club'.Tables[i]? = club.Tables[i]?) ∧
    (∀ ta : Table, a ≠ 0 → a ≠ b → 1 ≤ a → club.Tables[tableIndex a]? = some ta →
      ∃ club', handleEvent club ⟨t, id, c :: s :: rest⟩ = .ok ("", club') ∧
      club'.Clients = club.Clients.insert c b ∧ club'.Clients.lookup c = some b ∧
      club'.Queue = [] ∧
      club'.Tables[tableIndex b]? = some { tb with OccupiedBy := c, StartTime := t } ∧
      club'.Tables[tableIndex a]? = some { ta with
        OccupiedBy := ""
        Revenue := wrap64 (ta.Revenue + billedHours (t - ta.StartTime) * club.HourPrice)
        OccupiedTime := wrap64 (ta.OccupiedTime + (t - ta.StartTime)) } ∧
      ∀ i, i ≠ tableIndex a → i ≠ tableIndex b → club'.Tables[i]? = club.Tables[i]?) := by
  have hlt : tableIndex b < club.Tables.length := (List.getElem?_eq_some.mp htb).1
  have hb2 : b ≤ club.Tables.length := le_of_tableIndex_lt hlt
  have hr : ¬ (b < 1 ∨ b > (club.Tables.length : Int)) := by omega
  rw [handleEvent_eq, handleEventWith_seat _ _ _ _ _ hid]
  refine ⟨fun ha => ?_, fun ta ha hab ha1 hta => ?_⟩
  · subst ha
    refine ⟨{ club.print (formatTime t ++ " " ++ itoa id ++ " " ++ c ++ " " ++ itoa b) with
        Clients := club.Clients.insert c b
        Tables := club.Tables.modify
          (fun table => { table with OccupiedBy := c, StartTime := t }) (tableIndex b) },
      ?_, rfl, ?_, ?_, ?_, ?_⟩
    · simp [clientTakesSeatWith, hs, Club.print, hr, htb, hc, hfree]
    · simp
    · simp [hq, Club.print]
    · simp [List.getElem?_modify_eq, htb]
    · intro i hi
      simp [List.getElem?_modify_ne _ _ (Ne.symm hi)]
  · have hlta : tableIndex a < club.Tables.length := (List.getElem?_eq_some.mp hta).1
    have ha2 : a ≤ club.Tables.length := le_of_tableIndex_lt hlta
    have hne : tableIndex a ≠ tableIndex b := fun h => hab (tableIndex_inj ha1 hb h)
    have hleave := clientLeavesTableWith_quiet (handleEventFuel club.Queue.length)
      (club.print (formatTime t ++ " " ++ itoa id ++ " " ++ c ++ " " ++ itoa b)) a t ha1
      (by simpa [Club.print] using ha2) (Or.inl (by simpa [Club.print] using hq))
    refine ⟨{ club.print (formatTime t ++ " " ++ itoa id ++ " " ++ c ++ " " ++ itoa b) with
        Clients := club.Clients.insert c b
        Tables := (club.Tables.modify (vacate club.HourPrice t) (tableIndex a)).modify
          (fun table => { table with OccupiedBy := c, StartTime := t }) (tableIndex b) },
      ?_, rfl, ?_, ?_, ?_, ?_, ?_⟩
    · simp only [clientTakesSeatWith, hs]
      simp only [Club.print] at hleave
      simp [Club.print, hr, htb, hc, hfree, ha, hleave]
    · simp
    · simp [hq, Club.print]
    · simp [Club.print, List.getElem?_modify_eq, List.getElem?_modify_ne _ _ hne, htb]
    · simp [Club.print, List.getElem?_modify_eq, List.getElem?_modify_ne _ _ (Ne.symm hne), hta,
        vacate]
    · intro i hia hib
      simp [Club.print, List.getElem?_modify_ne _ _ (Ne.symm hia),
        List.getElem?_modify_ne _ _ (Ne.symm hib)]

theorem seat_success_witness :
    (∃ club', handleEvent oneSeated ⟨625, 2, ["client2", "2"]⟩ = .ok ("", club') ∧
      club'.Clients = oneSeated.Clients.insert "client2" 2 ∧
      club'.Clients.lookup "client2" = some 2 ∧ club'.Queue = [] ∧
      club'.Tables[tableIndex 2]? = some ⟨"client2", 625, 0, 0⟩ ∧
      ∀ i, i ≠ tableIndex 2 → club'.Tables[i]? = oneSeated.Tables[i]?) ∧
    (∃ club', handleEvent oneSeated ⟨660, 2, ["client1", "3"]⟩ = .ok ("", club') ∧
      club'.Clients = oneSeated.Clients.insert "client1" 3 ∧
      club'.Clients.lookup "client1" = some 3 ∧ club'.Queue = [] ∧
      club'.Tables[tableIndex 3]? = some ⟨"client1", 660, 0, 0⟩ ∧
      club'.Tables[tableIndex 1]? = some ⟨"", 594, 20, 66⟩ ∧
      ∀ i, i ≠ tableIndex 1 → i ≠ tableIndex 3 → club'.Tables[i]? = oneSeated.Tables[i]?) :=
  ⟨(seat_success oneSeated 625 2 "client2" "2" [] 0 2 ⟨"", 527040, 0, 0⟩ (Or.inl rfl) rfl rfl
      rfl (by decide) rfl rfl).1 rfl,
   (seat_success oneSeated 660 2 "client1" "3" [] 1 3 ⟨"", 527040, 0, 0⟩ (Or.inl rfl) rfl rfl
      rfl (by decide) rfl rfl).2 ⟨"client1", 594, 0, 0⟩ (by decide) (by decide) (by decide) rfl⟩

/-- Claim C4, refuted as stated: `alex` sits at table 1 and asks for table 1
again at `11:00`; the event is refused with `PlaceIsBusy`, the table is not
billed and its session start stays `10:20`. -/
theorem own_slot_counterexample :
    (twoSeated.Clients.lookup "alex" = some 1 ∧
      twoSeated.Tables[tableIndex 1]? = some ⟨"alex", 620, 0, 0⟩ ∧ atoi "1" = some 1) ∧
    handleEvent twoSeated ⟨660, 2, ["alex", "1"]⟩ =
      .ok ("11:00 13 PlaceIsBusy", twoSeated.print "11:00 2 alex 1") := by
  refine ⟨⟨rfl, rfl, rfl⟩, rfl⟩

/-- Claim C4, as amended: when client `c` (a non-empty name) is registered at
slot `n` and is the occupant of slot `n`, a seat event of `c` for slot `n` is
refused with `PlaceIsBusy`, and the Directory, the Queue and every table,
the session start of slot `n` included, stay as they are. -/
theorem own_slot_is_busy (club : Club) (t id : Int) (c s : String) (rest : List String)
    (n : Int) (table : Table) (hid : id = 2 ∨ id = 12) (hs : atoi s = some n) (h1 : 1 ≤ n)
    (hdir : club.Clients.lookup c = some n) (htab : club.Tables[tableIndex n]? = some table)
    (hocc : table.OccupiedBy = c) (hc : c ≠ "") :
    handleEvent club ⟨t, id, c :: s :: rest⟩ =
      .ok (formatTime t ++ " 13 PlaceIsBusy",
        club.print (formatTime t ++ " " ++ itoa id ++ " " ++ c ++ " " ++ itoa n)) := by
  have hlt : tableIndex n < club.Tables.length := (List.getElem?_eq_some.mp htab).1
  have h2 : n ≤ club.Tables.length := le_of_tableIndex_lt hlt
  have hr : ¬ (n < 1 ∨ n > (club.Tables.length : Int)) := by omega
  have hbusy : ¬ table.OccupiedBy = "" := by rw [hocc]; exact hc
  rw [handleEvent_eq, handleEventWith_seat _ _ _ _ _ hid]
  simp [clientTakesSeatWith, hs, Club.print, hr, htab, hdir, hbusy]

theorem own_slot_is_busy_witness :
    handleEvent twoSeated ⟨660, 12, ["rudolf", "+2"]⟩ =
      .ok (formatTime 660 ++ " 13 PlaceIsBusy",
        twoSeated.print (formatTime 660 ++ " " ++ itoa 12 ++ " " ++ "rudolf" ++ " " ++ itoa 2)) :=
  own_slot_is_busy twoSeated 660 12 "rudolf" "+2" [] 2 ⟨"rudolf", 630, 0, 0⟩ (Or.inr rfl) rfl
    (by decide) rfl rfl rfl (by decide)

/-! ## Waiting -/

/-- Claim C5: a wait event of `c` is refused with `ClientUnknown` when `c` has
no Directory entry, otherwise with `ICanWaitNoLonger!` when some slot is free;
otherwise, when the queue holds at least `N` clients, it returns the notice
`<t> 11 c` and changes neither the Directory (the entry of `c` stays) nor the
Queue nor the tables; otherwise it returns no message and appends `c` to the
tail of the queue. -/
theorem enqueue_contract (club : Club) (t : Int) (c : String) (rest : List String) :
    (c ∉ club.Clients →
      handleEvent club ⟨t, 3, c :: rest⟩ =
        .ok (formatTime t ++ " 13 ClientUnknown",
          club.print (formatTime t ++ " " ++ itoa 3 ++ " " ++ c))) ∧
    (c ∈ club.Clients → (∃ table ∈ club.Tables, table.OccupiedBy = "") →
      handleEvent club ⟨t, 3, c :: rest⟩ =
        .ok (formatTime t ++ " 13 ICanWaitNoLonger!",
          club.print (formatTime t ++ " " ++ itoa 3 ++ " " ++ c))) ∧
    (c ∈ club.Clients → (∀ table ∈ club.Tables, table.OccupiedBy ≠ "") →
      club.Tables.length ≤ club.Queue.length →
      handleEvent club ⟨t, 3, c :: rest⟩ =
        .ok (formatTime t ++ " 11 " ++ c,
          club.print (formatTime t ++ " " ++ itoa 3 ++ " " ++ c))) ∧
    (c ∈ club.Clients → (∀ table ∈ club.Tables, table.OccupiedBy ≠ "") →
      club.Queue.length < club.Tables.length →
      handleEvent club ⟨t, 3, c :: rest⟩ =
        .ok ("", { club.print (formatTime t ++ " " ++ itoa 3 ++ " " ++ c) with
                   Queue := club.Queue ++ [c] })) := by
  rw [handleEvent_eq]
  refine ⟨fun h => ?_, fun h hf => ?_, fun h hf hl => ?_, fun h hf hl => ?_⟩
  · have hn := AList.lookup_eq_none.mpr h
    simp [handleEventWith, clientWaits, Club.print, hn]
  · obtain ⟨p, hp⟩ := Option.isSome_iff_exists.mp (AList.lookup_isSome.mpr h)
    have hany : (club.Tables.any fun table => decide (table.OccupiedBy = "")) = true := by
      simpa using hf
    simp [handleEventWith, clientWaits, Club.print, hp, hany]
  · obtain ⟨p, hp⟩ := Option.isSome_iff_exists.mp (AList.lookup_isSome.mpr h)
    have hany : ¬ (club.Tables.any fun table => decide (table.OccupiedBy = "")) = true := by
      simpa using hf
    simp [handleEventWith, clientWaits, Club.print, hp, hany, hl]
  · obtain ⟨p, hp⟩ := Option.isSome_iff_exists.mp (AList.lookup_isSome.mpr h)
    have hany : ¬ (club.Tables.any fun table => decide (table.OccupiedBy = "")) = true := by
      simpa using hf
    simp [handleEventWith, clientWaits, Club.print, hp, hany, hl]

theorem enqueue_contract_witness :
    handleEvent twoSeated ⟨700, 3, ["anton"]⟩ =
      .ok ("11:40 13 ClientUnknown", twoSeated.print "11:40 3 anton") ∧
    handleEvent oneSeated ⟨592, 3, ["client1"]⟩ =
      .ok ("09:52 13 ICanWaitNoLonger!", oneSeated.print "09:52 3 client1") ∧
    handleEvent twoSeatedTwoWaiting ⟨700, 3, ["alex"]⟩ =
      .ok ("11:40 11 alex", twoSeatedTwoWaiting.print "11:40 3 alex") ∧
    handleEvent twoSeatedOneWaiting ⟨700, 3, ["alex"]⟩ =
      .ok ("", { twoSeatedOneWaiting.print "11:40 3 alex" with Queue := ["bob", "alex"] }) :=
  ⟨(enqueue_contract twoSeated 700 "anton" []).1 (AList.lookup_eq_none.mp rfl),
   (enqueue_contract oneSeated 592 "client1" []).2.1 (AList.lookup_isSome.mp (by rfl))
      (by decide),
   (enqueue_contract twoSeatedTwoWaiting 700 "alex" []).2.2.1
      (AList.lookup_isSome.mp (by rfl)) (by decide) (by decide),
   (enqueue_contract twoSeatedOneWaiting 700 "alex" []).2.2.2
      (AList.lookup_isSome.mp (by rfl)) (by decide) (by decide)⟩

/-! ## Departure and billing -/

/-- The parts of a departure that hold on every state: `ClientUnknown` without
a Directory entry; an unseated client only loses the entry; a client
registered at slot `k` has `clientLeavesTable` run on slot `k` with end time
`t` and then loses the entry, which without a promotion (empty queue, or `t`
the close time) frees slot `k` and bills it once, all other slots unchanged. -/
theorem departure_contract (club : Club) (t : Int) (c : String) (rest : List String) :
    (c ∉ club.Clients →
      handleEvent club ⟨t, 4, c :: rest⟩ =
        .ok (formatTime t ++ " 13 ClientUnknown",
          club.print (formatTime t ++ " " ++ itoa 4 ++ " " ++ c))) ∧
    (club.Clients.lookup c = some 0 →
      handleEvent club ⟨t, 4, c :: rest⟩ =
        .ok ("", { club.print (formatTime t ++ " " ++ itoa 4 ++ " " ++ c) with
                   Clients := club.Clients.erase c })) ∧
    (∀ k : Int, club.Clients.lookup c = some k → k ≠ 0 →
      handleEvent club ⟨t, 4, c :: rest⟩ =
        (clientLeavesTable (club.print (formatTime t ++ " " ++ itoa 4 ++ " " ++ c)) k t).bind
          fun club' => .ok ("", { club' with Clients := club'.Clients.erase c })) ∧
    (∀ k : Int, club.Clients.lookup c = some k → k ≠ 0 → DirectoryInRange club →
      (club.Tables.length : Int) < 2 ^ 63 →
      ∃ club', handleEvent club ⟨t, 4, c :: rest⟩ = .ok ("", club') ∧ c ∉ club'.Clients ∧
        club'.Tables.length = club.Tables.length) ∧
    (∀ (k : Int) (table : Table), club.Clients.lookup c = some k → 1 ≤ k →
      club.Tables[tableIndex k]? = some table → club.Queue = [] ∨ t = club.CloseTime →
      ∃ club', handleEvent club ⟨t, 4, c :: rest⟩ = .ok ("", club') ∧ c ∉ club'.Clients ∧
        club'.Clients = club.Clients.erase c ∧ club'.Queue = club.Queue ∧
        club'.Tables[tableIndex k]? = some { table with
          OccupiedBy := ""
          Revenue := wrap64 (table.Revenue + billedHours (t - table.StartTime) * club.HourPrice)
          OccupiedTime := wrap64 (table.OccupiedTime + (t - table.StartTime)) } ∧
        ∀ i, i ≠ tableIndex k → club'.Tables[i]? = club.Tables[i]?) := by
  have hstep : ∀ k : Int, club.Clients.lookup c = some k → k ≠ 0 →
      handleEvent club ⟨t, 4, c :: rest⟩ =
        (clientLeavesTable (club.print (formatTime t ++ " " ++ itoa 4 ++ " " ++ c)) k t).bind
          fun club' => .ok ("", { club' with Clients := club'.Clients.erase c }) := by
    intro k hk hk0
    rw [handleEvent_eq]
    simp [handleEventWith, clientLeavesWith, clientLeavesTable, Club.print, hk, hk0]
  refine ⟨fun h => ?_, fun h => ?_, hstep, fun k hk hk0 hin hN => ?_,
    fun k table hk hk1 htab hquiet => ?_⟩
  · have hn := AList.lookup_eq_none.mpr h
    simp [handleEvent_eq, handleEventWith, clientLeavesWith, Club.print, hn]
  · simp [handleEvent_eq, handleEventWith, clientLeavesWith, Club.print, h]
  · have hr := (directoryInRange_iff club).mp hin c k hk
    obtain ⟨club', hok, hkept⟩ := clientLeavesTableWith_total club.Queue.length
      (club.print (formatTime t ++ " " ++ itoa 4 ++ " " ++ c)) k t (le_refl _)
      (directoryInRange_of_fields hin rfl rfl) hN (by omega) hr.2
    rw [hstep k hk hk0]
    unfold clientLeavesTable
    simp only [Club.print] at hok ⊢
    rw [hok]
    refine ⟨_, rfl, ?_, hkept.tables⟩
    simp
  · have hlt : tableIndex k < club.Tables.length := (List.getElem?_eq_some.mp htab).1
    have hk2 : k ≤ club.Tables.length := le_of_tableIndex_lt hlt
    rw [hstep k hk (by omega)]
    unfold clientLeavesTable
    rw [clientLeavesTableWith_quiet _ _ k t hk1 (by simpa [Club.print] using hk2)
      (by simpa [Club.print] using hquiet)]
    refine ⟨_, rfl, ?_, rfl, rfl, ?_, ?_⟩
    · simp
    · simp [Club.print, List.getElem?_modify_eq, htab, vacate]
    · intro i hi
      simp [Club.print, List.getElem?_modify_ne _ _ (Ne.symm hi)]


theorem departure_contract_witness :
    handleEvent twoSeated ⟨610, 4, ["anton"]⟩ =
      .ok ("10:10 13 ClientUnknown", twoSeated.print "10:10 4 anton") ∧
    handleEvent twoSeatedOneWaiting ⟨700, 4, ["bob"]⟩ =
      .ok ("", { twoSeatedOneWaiting.print "11:40 4 bob" with
                 Clients := twoSeatedOneWaiting.Clients.erase "bob" }) ∧
    handleEvent twoSeatedOneWaiting ⟨700, 4, ["alex"]⟩ =
      (clientLeavesTable (twoSeatedOneWaiting.print "11:40 4 alex") 1 700).bind
        (fun club' => .ok ("", { club' with Clients := club'.Clients.erase "alex" })) ∧
    (∃ club', handleEvent twoSeatedOneWaiting ⟨700, 4, ["alex"]⟩ = .ok ("", club') ∧
      "alex" ∉ club'.Clients ∧ club'.Tables.length = twoSeatedOneWaiting.Tables.length) ∧
    (∃ club', handleEvent twoSeated ⟨700, 4, ["alex"]⟩ = .ok ("", club') ∧
      "alex" ∉ club'.Clients ∧ club'.Clients = twoSeated.Clients.erase "alex" ∧
      club'.Queue = twoSeated.Queue ∧
      club'.Tables[tableIndex 1]? = some ⟨"", 620, 200, 80⟩ ∧
      ∀ i, i ≠ tableIndex 1 → club'.Tables[i]? = twoSeated.Tables[i]?) :=
  ⟨(departure_contract twoSeated 610 "anton" []).1 (AList.lookup_eq_none.mp rfl),
   (departure_contract twoSeatedOneWaiting 700 "bob" []).2.1 rfl,
   (departure_contract twoSeatedOneWaiting 700 "alex" []).2.2.1 1 rfl (by decide),
   (departure_contract twoSeatedOneWaiting 700 "alex" []).2.2.2.1 1 rfl (by decide)
      (by decide) (by decide),
   (departure_contract twoSeated 700 "alex" []).2.2.2.2 1 ⟨"alex", 620, 0, 0⟩ rfl (by decide)
      rfl (Or.inl rfl)⟩

/-- Claim C6, evaluated at a failing input: with one table at price 10, `a`
sits down at `09:00` and waits at `10:00`, so `a` holds slot 1 and is the head
of the queue.  The departure of `a` at `11:00` returns no message and removes
the Directory entry, but slot 1 is not left vacated and billed once for
`[09:00, 11:00]` (20 for 120 minutes): the vacate promotes `a` itself, the
seat event of the promotion bills the slot a second time, and slot 1 ends
occupied by the departed `a` with 40 billed for 240 minutes, which is what the
report prints. -/
theorem departure_bills_twice :
    InputLog departWhileSeatedAndQueued ∧
    (runEvents waitWhileSeated (initialClub 1 540 1140 10 departWhileSeatedAndQueued)).bind
        (fun club => .ok club.summary) = .ok ([("a", 0, 0)], ["a"], [("a", 1)]) ∧
    (runEvents waitWhileSeated (initialClub 1 540 1140 10 departWhileSeatedAndQueued)).bind
        (fun club => .ok (club.Tables.map fun table => table.StartTime)) = .ok [540] ∧
    vacate 10 660 ⟨"a", 540, 0, 0⟩ = ⟨"", 540, 20, 120⟩ ∧
    (runEvents waitWhileSeated (initialClub 1 540 1140 10 departWhileSeatedAndQueued)).bind
        (fun club => (handleEvent club ⟨660, 4, ["a"]⟩).bind fun result => .ok result.1) =
      .ok "" ∧
    (runEvents waitWhileSeated (initialClub 1 540 1140 10 departWhileSeatedAndQueued)).bind
        (fun club => (handleEvent club ⟨660, 4, ["a"]⟩).bind
          fun result => .ok result.2.summary) =
      .ok ([("a", 40, 240)], [], []) ∧
    (workReport (initialClub 1 540 1140 10 departWhileSeatedAndQueued)).bind
        (fun club => .ok club.Stdout) =
      .ok ["09:00", "09:00 1 a", "09:00 2 a 1", "10:00 3 a", "11:00 4 a", "11:00 12 a 1",
        "19:00", "1 40 04:00"] := by
  refine ⟨?_, ?_, ?_, ?_, ?_, ?_, ?_⟩ <;> decide!

/-- Claim C7 as stated fails in two ways.  At price `2 ^ 62` a session of 61
minutes is billed 2 hours, and the revenue, a 64-bit `int`, goes from 0 to
`-2 ^ 63` and not to `ceil(61 / 60) * 2 ^ 62 = 2 ^ 63`.  And when `bob` waits,
`clientLeavesTable` on the slot of `alex` returns with the slot billed and
occupied by `bob`, not with the occupant cleared. -/
theorem billing_wraps_and_promotes :
    ((clientLeavesTable dearSeat 1 61).bind (fun club => .ok club.summary) =
        .ok ([("", -9223372036854775808, 61)], [], [("a", 1)]) ∧
      (0 : Int) + ⌈(((61 : Int) - 0 : Int) : ℚ) / 60⌉ * 4611686018427387904
        = 9223372036854775808) ∧
    (clientLeavesTable twoSeatedOneWaiting 1 753).bind (fun club => .ok club.summary) =
      .ok ([("bob", 300, 133), ("rudolf", 0, 0)], [],
        [("bob", 1), ("rudolf", 2), ("alex", 1)]) := by
  refine ⟨⟨by decide!, ?_⟩, by decide!⟩
  rw [← billedHours_eq_ceil]
  decide

/-- Claim C7, amended: `clientLeavesTable` on slot `k` with session start `s`
and end time `e` (`d = e - s` minutes, in particular for `e ≥ s`) rewrites the
record of the slot to the one with the occupant cleared, the revenue
`rev + ceil(d / 60) * p` and the occupied minutes `occ + d`, both sums stored
as 64-bit `int`: they are exact whenever they lie in `[-2 ^ 63, 2 ^ 63)`.
When nobody is promoted (empty queue, or `e` the close time) this is the
record of slot `k` on return and nothing else changes.  When the head `h` of
the queue is promoted and `h` is an unseated client, slot `k` holds on return
that billed record with occupant `h` and session start `e`, the Directory maps
`h` to `k`, the queue lost its head and no other slot changed.  A session of
`H` hours and `M` minutes, `0 < M < 60`, is billed `H + 1` hours, a session of
exactly `H` hours `H` hours, a zero-length session nothing. -/
theorem billing_exact (club : Club) (k e : Int) (table : Table) (hk : 1 ≤ k)
    (htab : club.Tables[tableIndex k]? = some table) :
    vacate club.HourPrice e table =
      { table with
        OccupiedBy := ""
        Revenue := wrap64
          (table.Revenue + ⌈((e - table.StartTime : Int) : ℚ) / 60⌉ * club.HourPrice)
        OccupiedTime := wrap64 (table.OccupiedTime + (e - table.StartTime)) } ∧
    (-2 ^ 63 ≤ table.Revenue + ⌈((e - table.StartTime : Int) : ℚ) / 60⌉ * club.HourPrice →
      table.Revenue + ⌈((e - table.StartTime : Int) : ℚ) / 60⌉ * club.HourPrice < 2 ^ 63 →
      (vacate club.HourPrice e table).Revenue =
        table.Revenue + ⌈((e - table.StartTime : Int) : ℚ) / 60⌉ * club.HourPrice) ∧
    (-2 ^ 63 ≤ table.OccupiedTime + (e - table.StartTime) →
      table.OccupiedTime + (e - table.StartTime) < 2 ^ 63 →
      (vacate club.HourPrice e table).OccupiedTime =
        table.OccupiedTime + (e - table.StartTime)) ∧
    (club.Queue = [] ∨ e = club.CloseTime →
      ∃ club', clientLeavesTable club k e = .ok club' ∧
        club'.Tables[tableIndex k]? = some (vacate club.HourPrice e table) ∧
        (vacate club.HourPrice e table).OccupiedBy = "" ∧
        (∀ i, i ≠ tableIndex k → club'.Tables[i]? = club.Tables[i]?) ∧
        club'.Clients = club.Clients ∧ club'.Queue = club.Queue ∧
        club'.Stdout = club.Stdout) ∧
    (∀ (h : String) (rest : List String), club.Queue = h :: rest → e ≠ club.CloseTime →
      club.Clients.lookup h = some 0 → (club.Tables.length : Int) < 2 ^ 63 →
      ∃ club', clientLeavesTable club k e = .ok club' ∧
        club'.Tables[tableIndex k]? = some
          { vacate club.HourPrice e table with OccupiedBy := h, StartTime := e } ∧
        (∀ i, i ≠ tableIndex k → club'.Tables[i]? = club.Tables[i]?) ∧
        club'.Clients = club.Clients.insert h k ∧ club'.Queue = rest ∧
        club'.Stdout = club.Stdout ++
          [formatTime e ++ " " ++ itoa 12 ++ " " ++ h ++ " " ++ itoa k]) ∧
    (∀ H M : Int, 0 ≤ H → 0 < M → M < 60 → e - table.StartTime = 60 * H + M →
      billedHours (e - table.StartTime) = H + 1 ∧
      (vacate club.HourPrice e table).Revenue =
        wrap64 (table.Revenue + (H + 1) * club.HourPrice)) ∧
    (∀ H : Int, 0 ≤ H → e - table.StartTime = 60 * H →
      billedHours (e - table.StartTime) = H ∧
      (vacate club.HourPrice e table).Revenue = wrap64 (table.Revenue + H * club.HourPrice)) ∧
    (e = table.StartTime →
      billedHours (e - table.StartTime) = 0 ∧
      (-2 ^ 63 ≤ table.Revenue → table.Revenue < 2 ^ 63 →
        (vacate club.HourPrice e table).Revenue = table.Revenue) ∧
      (-2 ^ 63 ≤ table.OccupiedTime → table.OccupiedTime < 2 ^ 63 →
        (vacate club.HourPrice e table).OccupiedTime = table.OccupiedTime)) := by
  have hlt : tableIndex k < club.Tables.length := (List.getElem?_eq_some.mp htab).1
  have hk2 : k ≤ club.Tables.length := le_of_tableIndex_lt hlt
  have hr : ¬ (k < 1 ∨ k > (club.Tables.length : Int)) := by omega
  refine ⟨?_, fun h0 h1 => ?_, fun h0 h1 => ?_, fun hquiet => ?_,
    fun h rest hQ hne hh hN => ?_, fun H M hH hM0 hM hd => ?_, fun H hH hd => ?_, fun hd => ?_⟩
  · simp [vacate, billedHours_eq_ceil]
  · simp only [vacate, billedHours_eq_ceil]
    exact wrap64_of_range _ h0 h1
  · simp only [vacate]
    exact wrap64_of_range _ h0 h1
  · unfold clientLeavesTable
    rw [clientLeavesTableWith_quiet _ club k e hk hk2 hquiet]
    refine ⟨_, rfl, ?_, rfl, ?_, rfl, rfl, rfl⟩
    · simp [List.getElem?_modify_eq, htab]
    · intro i hi
      simp [List.getElem?_modify_ne _ _ (Ne.symm hi)]
  · have hfuel : handleEventFuel club.Queue.length =
        handleEventWith (handleEventFuel rest.length) := by rw [hQ]; rfl
    unfold clientLeavesTable
    rw [clientLeavesTableWith_promote _ club k e h rest hk hk2 hQ hne, hfuel,
      handleEventWith_seat _ _ _ _ _ (Or.inr rfl)]
    simp only [clientTakesSeatWith, atoi_itoa k (by omega) (by omega)]
    simp only [Club.print, List.length_modify, hr, if_false, List.getElem?_modify_eq, htab,
      Option.map_some', hh]
    simp only [vacate, ne_eq, not_true_eq_false, if_false, Outcome.bind_ok]
    refine ⟨_, rfl, ?_, ?_, rfl, rfl, rfl⟩
    · simp [List.getElem?_modify_eq, htab, vacate]
    · intro i hi
      simp [List.getElem?_modify_ne _ _ (Ne.symm hi)]
  · have hb := billedHours_bounds (e - table.StartTime)
    have : billedHours (e - table.StartTime) = H + 1 := by omega
    simp [vacate, this]
  · have hb := billedHours_bounds (e - table.StartTime)
    have : billedHours (e - table.StartTime) = H := by omega
    simp [vacate, this]
  · have hb := billedHours_bounds (e - table.StartTime)
    have : billedHours (e - table.StartTime) = 0 := by omega
    subst hd
    refine ⟨this, fun h0 h1 => ?_, fun h0 h1 => ?_⟩
    · simp only [vacate, this]
      simpa using wrap64_of_range _ h0 h1
    · simp only [vacate]
      simpa using wrap64_of_range _ h0 h1

theorem billing_exact_witness :
    ((vacate 10 753 ⟨"client1", 594, 0, 0⟩).Revenue =
        0 + ⌈((753 - 594 : Int) : ℚ) / 60⌉ * 10 ∧
      (vacate 10 753 ⟨"client1", 594, 0, 0⟩).OccupiedTime = 0 + (753 - 594)) ∧
    (∃ club', clientLeavesTable oneSeated 1 753 = .ok club' ∧
      club'.Tables[tableIndex 1]? = some ⟨"", 594, 30, 159⟩ ∧
      (vacate 10 753 ⟨"client1", 594, 0, 0⟩).OccupiedBy = "" ∧
      (∀ i, i ≠ tableIndex 1 → club'.Tables[i]? = oneSeated.Tables[i]?) ∧
      club'.Clients = oneSeated.Clients ∧ club'.Queue = oneSeated.Queue ∧
      club'.Stdout = oneSeated.Stdout) ∧
    (∃ club', clientLeavesTable twoSeatedOneWaiting 1 753 = .ok club' ∧
      club'.Tables[tableIndex 1]? = some ⟨"bob", 753, 300, 133⟩ ∧
      (∀ i, i ≠ tableIndex 1 → club'.Tables[i]? = twoSeatedOneWaiting.Tables[i]?) ∧
      club'.Clients = twoSeatedOneWaiting.Clients.insert "bob" 1 ∧ club'.Queue = [] ∧
      club'.Stdout = [] ++ ["12:33 12 bob 1"]) ∧
    (billedHours (753 - 594) = 2 + 1 ∧
      (vacate 10 753 ⟨"client1", 594, 0, 0⟩).Revenue = wrap64 (0 + (2 + 1) * 10)) ∧
    (billedHours (714 - 594) = 2 ∧
      (vacate 10 714 ⟨"client1", 594, 0, 0⟩).Revenue = wrap64 (0 + 2 * 10)) ∧
    (billedHours (594 - 594) = 0 ∧
      (vacate 10 594 ⟨"client1", 594, 0, 0⟩).Revenue = 0 ∧
      (vacate 10 594 ⟨"client1", 594, 0, 0⟩).OccupiedTime = 0) :=
  ⟨⟨(billing_exact oneSeated 1 753 ⟨"client1", 594, 0, 0⟩ (by decide) rfl).2.1
      (by rw [← billedHours_eq_ceil]; decide) (by rw [← billedHours_eq_ceil]; decide),
    (billing_exact oneSeated 1 753 ⟨"client1", 594, 0, 0⟩ (by decide) rfl).2.2.1
      (by decide) (by decide)⟩,
   (billing_exact oneSeated 1 753 ⟨"client1", 594, 0, 0⟩ (by decide) rfl).2.2.2.1 (Or.inl rfl),
   (billing_exact twoSeatedOneWaiting 1 753 ⟨"alex", 620, 0, 0⟩ (by decide) rfl).2.2.2.2.1
      "bob" [] rfl (by decide) rfl (by decide),
   (billing_exact oneSeated 1 753 ⟨"client1", 594, 0, 0⟩ (by decide) rfl).2.2.2.2.2.1 2 39
      (by decide) (by decide) (by decide) (by decide),
   (billing_exact oneSeated 1 714 ⟨"client1", 594, 0, 0⟩ (by decide) rfl).2.2.2.2.2.2.1 2
      (by decide) (by decide),
   ⟨((billing_exact oneSeated 1 594 ⟨"client1", 594, 0, 0⟩ (by decide) rfl).2.2.2.2.2.2.2 rfl).1,
    ((billing_exact oneSeated 1 594 ⟨"client1", 594, 0, 0⟩ (by decide) rfl).2.2.2.2.2.2.2 rfl).2.1
      (by decide) (by decide),
    ((billing_exact oneSeated 1 594 ⟨"client1", 594, 0, 0⟩ (by decide) rfl).2.2.2.2.2.2.2 rfl).2.2
      (by decide) (by decide)⟩⟩

/-- Claim C8: when `c` is registered at slot `k`, the queue is `h :: rest` and
`h` has a Directory entry with slot index 0, the departure of `c` at time `t`
promotes `h` exactly when `t` differs from the close time.  For `t ≠ close` the
queue becomes `rest`, `Directory[h] = k`, and slot `k`, billed for the session
of `c`, has occupant `h` with session start `t`, the time of the departure
itself; for `t = close` the queue is unchanged and slot `k` is left free. -/
theorem promotion_on_departure (club : Club) (t : Int) (c h : String)
    (rest body : List String) (k : Int) (table : Table)
    (hc : club.Clients.lookup c = some k) (hk : 1 ≤ k)
    (htab : club.Tables[tableIndex k]? = some table) (hQ : club.Queue = h :: rest)
    (hh : club.Clients.lookup h = some 0) (hN : (club.Tables.length : Int) < 2 ^ 63) :
    (t ≠ club.CloseTime →
      ∃ club', handleEvent club ⟨t, 4, c :: body⟩ = .ok ("", club') ∧
        club'.Queue = rest ∧ club'.Clients.lookup h = some k ∧ c ∉ club'.Clients ∧
        club'.Tables[tableIndex k]? = some
          { vacate club.HourPrice t table with OccupiedBy := h, StartTime := t } ∧
        (∀ i, i ≠ tableIndex k → club'.Tables[i]? = club.Tables[i]?) ∧
        club'.Stdout = club.Stdout ++ [formatTime t ++ " " ++ itoa 4 ++ " " ++ c,
          formatTime t ++ " " ++ itoa 12 ++ " " ++ h ++ " " ++ itoa k]) ∧
    (t = club.CloseTime →
      ∃ club', handleEvent club ⟨t, 4, c :: body⟩ = .ok ("", club') ∧
        club'.Queue = h :: rest ∧ club'.Clients.lookup h = some 0 ∧ c ∉ club'.Clients ∧
        club'.Tables[tableIndex k]? = some (vacate club.HourPrice t table) ∧
        (vacate club.HourPrice t table).OccupiedBy = "" ∧
        (∀ i, i ≠ tableIndex k → club'.Tables[i]? = club.Tables[i]?) ∧
        club'.Stdout = club.Stdout ++ [formatTime t ++ " " ++ itoa 4 ++ " " ++ c]) := by
  have hlt : tableIndex k < club.Tables.length := (List.getElem?_eq_some.mp htab).1
  have hk2 : k ≤ club.Tables.length := le_of_tableIndex_lt hlt
  have hk0 : k ≠ 0 := by omega
  have hne : h ≠ c := by
    intro e
    rw [e, hc] at hh
    exact hk0 (by simpa using hh)
  have hr : ¬ (k < 1 ∨ k > (club.Tables.length : Int)) := by omega
  have hstep : handleEvent club ⟨t, 4, c :: body⟩ =
      (clientLeavesTableWith (handleEventFuel club.Queue.length)
        (club.print (formatTime t ++ " " ++ itoa 4 ++ " " ++ c)) k t).bind
        fun club' => .ok ("", { club' with Clients := club'.Clients.erase c }) := by
    rw [handleEvent_eq]
    simp [handleEventWith, clientLeavesWith, Club.print, hc, hk0]
  refine ⟨fun hclose => ?_, fun hclose => ?_⟩
  · have hfuel : handleEventFuel club.Queue.length =
        handleEventWith (handleEventFuel rest.length) := by rw [hQ]; rfl
    rw [hstep, clientLeavesTableWith_promote _ _ k t h rest hk
      (by simpa [Club.print] using hk2) (by simpa [Club.print] using hQ)
      (by simpa [Club.print] using hclose), hfuel,
      handleEventWith_seat _ _ _ _ _ (Or.inr rfl)]
    simp only [clientTakesSeatWith, atoi_itoa k (by omega) (by omega)]
    simp only [Club.print, List.length_modify, hr, if_false, List.getElem?_modify_eq, htab,
      Option.map_some', hh]
    simp only [vacate, ne_eq, not_true_eq_false, if_false, Outcome.bind_ok]
    refine ⟨_, rfl, rfl, ?_, ?_, ?_, ?_, ?_⟩
    · simp [AList.lookup_erase_ne hne]
    · simp
    · simp [List.getElem?_modify_eq, htab, vacate]
    · intro i hi
      simp [List.getElem?_modify_ne _ _ (Ne.symm hi)]
    · simp
  · rw [hstep, clientLeavesTableWith_quiet _ _ k t hk (by simpa [Club.print] using hk2)
      (Or.inr (by simpa [Club.print] using hclose))]
    refine ⟨_, rfl, ?_, ?_, ?_, ?_, ?_, ?_, ?_⟩
    · simp [Club.print, hQ]
    · simp [Club.print, AList.lookup_erase_ne hne, hh]
    · simp
    · simp [Club.print, List.getElem?_modify_eq, htab]
    · simp [vacate]
    · intro i hi
      simp [Club.print, List.getElem?_modify_ne _ _ (Ne.symm hi)]
    · simp [Club.print]

theorem promotion_on_departure_witness :
    (∃ club', handleEvent twoSeatedOneWaiting ⟨753, 4, ["alex"]⟩ = .ok ("", club') ∧
      club'.Queue = [] ∧ club'.Clients.lookup "bob" = some 1 ∧ "alex" ∉ club'.Clients ∧
      club'.Tables[tableIndex 1]? = some ⟨"bob", 753, 300, 133⟩ ∧
      (∀ i, i ≠ tableIndex 1 → club'.Tables[i]? = twoSeatedOneWaiting.Tables[i]?) ∧
      club'.Stdout = [] ++ ["12:33 4 alex", "12:33 12 bob 1"]) ∧
    (∃ club', handleEvent twoSeatedOneWaiting ⟨900, 4, ["alex"]⟩ = .ok ("", club') ∧
      club'.Queue = ["bob"] ∧ club'.Clients.lookup "bob" = some 0 ∧ "alex" ∉ club'.Clients ∧
      club'.Tables[tableIndex 1]? = some ⟨"", 620, 500, 280⟩ ∧
      (vacate 100 900 ⟨"alex", 620, 0, 0⟩).OccupiedBy = "" ∧
      (∀ i, i ≠ tableIndex 1 → club'.Tables[i]? = twoSeatedOneWaiting.Tables[i]?) ∧
      club'.Stdout = [] ++ ["15:00 4 alex"]) :=
  ⟨(promotion_on_departure twoSeatedOneWaiting 753 "alex" "bob" [] [] 1 ⟨"alex", 620, 0, 0⟩
      rfl (by decide) rfl rfl rfl (by decide)).1 (by decide),
   (promotion_on_departure twoSeatedOneWaiting 900 "alex" "bob" [] [] 1 ⟨"alex", 620, 0, 0⟩
      rfl (by decide) rfl rfl rfl (by decide)).2 rfl⟩

/-! ## Closure -/

/-- Claim C9: on a state whose Directory values are 0 or numbers of existing
tables, `closureProcessing` returns normally and prints exactly the lines
`<close> 11 <client>` for the sorted list of the Directory keys: one line per
Directory entry, in strictly ascending lexicographic order; it promotes nobody,
the Queue (and the Directory) are the same before and after. -/
theorem closure_notices (club : Club) (hin : DirectoryInRange club) :
    ∃ club', closureProcessing club = .ok club' ∧
      club'.Stdout = club.Stdout ++
        (sortStrings club.Clients.keys).map
          (fun client => formatTime club.CloseTime ++ " 11 " ++ client) ∧
      (sortStrings club.Clients.keys).Perm club.Clients.keys ∧
      (sortStrings club.Clients.keys).length = club.Clients.entries.length ∧
      (sortStrings club.Clients.keys).Pairwise (· < ·) ∧
      club'.Queue = club.Queue ∧ club'.Clients = club.Clients := by
  obtain ⟨club', h, hc, hq, _, _, hs, _⟩ :=
    closeClients_spec (sortStrings club.Clients.keys) club hin
  refine ⟨club', h, hs, sortStrings_perm _, ?_, sortStrings_strict _ club.Clients.keys_nodup,
    hq, hc⟩
  rw [(sortStrings_perm _).length_eq]
  simp [AList.keys, List.keys]

theorem closure_notices_witness :
    ∃ club', closureProcessing twoSeatedOneWaiting = .ok club' ∧
      club'.Stdout = ["15:00 11 alex", "15:00 11 bob", "15:00 11 rudolf"] ∧
      ["alex", "bob", "rudolf"].Perm ["bob", "rudolf", "alex"] ∧
      ["alex", "bob", "rudolf"].length = 3 ∧
      ["alex", "bob", "rudolf"].Pairwise (· < ·) ∧
      club'.Queue = ["bob"] ∧ club'.Clients = twoSeatedOneWaiting.Clients :=
  closure_notices twoSeatedOneWaiting (by decide)

/-- Claim C10, refuted as stated: after `closureProcessing` on `twoSeated` the
Directory still holds `rudolf` and `alex`, and a second run prints both notices
again and bills both tables a second time (revenue 500 to 1000, occupied
minutes 280 to 560 and 270 to 540). -/
theorem closure_rerun_counterexample :
    closureProcessing twoSeated = .ok twoSeatedClosed ∧
    twoSeatedClosed.Clients.keys = ["rudolf", "alex"] ∧
    closureProcessing twoSeatedClosed =
      .ok { twoSeatedClosed with
        Tables := [⟨"", 620, 1000, 560⟩, ⟨"", 630, 1000, 540⟩]
        Stdout := ["15:00 11 alex", "15:00 11 rudolf", "15:00 11 alex", "15:00 11 rudolf"] } :=
  ⟨rfl, rfl, rfl⟩

/-- Claim C10, as amended: `closureProcessing` removes no Directory entry; it
leaves the Directory and the Queue as they were.  A second run therefore
prints the same notices again, one per Directory entry, and leaves the
Directory and the Queue exactly as the first run left them; it leaves every
table as the first run left it when every Directory entry has slot index 0,
and it is a no-op when the Directory is empty. -/
theorem closure_rerun (club : Club) (hin : DirectoryInRange club) :
    ∃ club₁ club₂, closureProcessing club = .ok club₁ ∧ closureProcessing club₁ = .ok club₂ ∧
      club₁.Clients = club.Clients ∧ club₁.Queue = club.Queue ∧
      club₂.Clients = club₁.Clients ∧ club₂.Queue = club₁.Queue ∧
      club₂.Stdout = club₁.Stdout ++
        (sortStrings club.Clients.keys).map
          (fun client => formatTime club.CloseTime ++ " 11 " ++ client) ∧
      ((∀ e ∈ club.Clients.entries, e.2 = 0) → club₂.Tables = club₁.Tables) ∧
      (club.Clients.entries = [] → club₂ = club₁) := by
  obtain ⟨club₁, h1, hc1, hq1, ht1, hl1, hs1, htab1⟩ :=
    closeClients_spec (sortStrings club.Clients.keys) club hin
  obtain ⟨club₂, h2, hc2, hq2, ht2, hl2, hs2, htab2⟩ :=
    closeClients_spec (sortStrings club₁.Clients.keys) club₁
      (directoryInRange_of_fields hin hc1 hl1)
  have hzero : (∀ e ∈ club.Clients.entries, e.2 = 0) →
      ∀ c ∈ sortStrings club₁.Clients.keys, (club₁.Clients.lookup c).getD 0 = 0 := by
    intro hall c _
    rw [hc1]
    cases h : club.Clients.lookup c with
    | none => rfl
    | some p => exact hall ⟨c, p⟩ (AList.mem_lookup_iff.mp h)
  refine ⟨club₁, club₂, h1, h2, hc1, hq1, hc2, hq2, ?_, fun hall => htab2 (hzero hall),
    fun hempty => ?_⟩
  · rw [hs2, hc1]
    simp [closureNotice, ht1]
  · have hkeys : club₁.Clients.keys = [] := by rw [hc1]; simp [AList.keys, hempty]
    have : closureProcessing club₁ = .ok club₁ := by
      unfold closureProcessing
      rw [hkeys]
      rfl
    have h2' : closureProcessing club₁ = .ok club₂ := h2
    rw [this] at h2'
    cases h2'
    rfl

theorem closure_rerun_witness :
    ∃ club₁ club₂, closureProcessing twoSeated = .ok club₁ ∧
      closureProcessing club₁ = .ok club₂ ∧
      club₁.Clients = twoSeated.Clients ∧ club₁.Queue = [] ∧
      club₂.Clients = club₁.Clients ∧ club₂.Queue = club₁.Queue ∧
      club₂.Stdout = club₁.Stdout ++ ["15:00 11 alex", "15:00 11 rudolf"] ∧
      ((∀ e ∈ twoSeated.Clients.entries, e.2 = 0) → club₂.Tables = club₁.Tables) ∧
      (twoSeated.Clients.entries = [] → club₂ = club₁) :=
  closure_rerun twoSeated (by decide)

/-! ## Messages and the state -/

/-- A message came back from a step that ends in `.ok ("", _)`: it is empty. -/
theorem Outcome.bind_ok_message {α : Type} (x : Outcome α) (f : α → Club) (msg : String)
    (club' : Club) (h : (x.bind fun val => .ok ("", f val)) = .ok (msg, club')) : msg = "" := by
  cases x with
  | ok val =>
    simp only [Outcome.bind_ok, Outcome.ok.injEq, Prod.mk.injEq] at h
    exact h.1.symm
  | panic => simp [Outcome.bind] at h
  | outOfFuel => simp [Outcome.bind] at h

theorem sameState_refl (club : Club) : SameState club club := ⟨rfl, rfl, rfl⟩

theorem sameState_print (club : Club) (line : String) : SameState club (club.print line) :=
  ⟨rfl, rfl, rfl⟩

theorem clientCome_message (club : Club) (event : Event) (msg : String) (club' : Club)
    (h : clientCome club event = .ok (msg, club')) (hmsg : msg ≠ "") : SameState club club' := by
  unfold clientCome at h
  cases hb : event.EventBody with
  | nil => simp [hb] at h
  | cons c rest =>
    simp only [hb] at h
    cases hl : (club.print (formatTime event.Time ++ " " ++ itoa event.ID ++ " " ++ c)).Clients.lookup
      c with
    | some p =>
      simp only [hl, Outcome.ok.injEq, Prod.mk.injEq] at h
      rw [← h.2]; exact sameState_print _ _
    | none =>
      simp only [hl] at h
      split at h
      · simp only [Outcome.ok.injEq, Prod.mk.injEq] at h
        rw [← h.2]; exact sameState_print _ _
      · simp only [Outcome.ok.injEq, Prod.mk.injEq] at h
        exact absurd h.1.symm hmsg

theorem clientWaits_message (club : Club) (event : Event) (msg : String) (club' : Club)
    (h : clientWaits club event = .ok (msg, club')) (hmsg : msg ≠ "") : SameState club club' := by
  unfold clientWaits at h
  cases hb : event.EventBody with
  | nil => simp [hb] at h
  | cons c rest =>
    simp only [hb] at h
    cases hl : (club.print (formatTime event.Time ++ " " ++ itoa event.ID ++ " " ++ c)).Clients.lookup
      c with
    | none =>
      simp only [hl, Outcome.ok.injEq, Prod.mk.injEq] at h
      rw [← h.2]; exact sameState_print _ _
    | some p =>
      simp only [hl] at h
      split at h
      · simp only [Outcome.ok.injEq, Prod.mk.injEq] at h
        rw [← h.2]; exact sameState_print _ _
      · split at h
        · simp only [Outcome.ok.injEq, Prod.mk.injEq] at h
          rw [← h.2]; exact sameState_print _ _
        · simp only [Outcome.ok.injEq, Prod.mk.injEq] at h
          exact absurd h.1.symm hmsg

theorem clientLeavesWith_message (handle : Club → Event → Outcome (String × Club))
    (club : Club) (event : Event) (msg : String) (club' : Club)
    (h : clientLeavesWith handle club event = .ok (msg, club')) (hmsg : msg ≠ "") :
    SameState club club' := by
  unfold clientLeavesWith at h
  cases hb : event.EventBody with
  | nil => simp [hb] at h
  | cons c rest =>
    simp only [hb] at h
    cases hl : (club.print (formatTime event.Time ++ " " ++ itoa event.ID ++ " " ++ c)).Clients.lookup
      c with
    | none =>
      simp only [hl, Outcome.ok.injEq, Prod.mk.injEq] at h
      rw [← h.2]; exact sameState_print _ _
    | some p =>
      simp only [hl] at h
      exact absurd (Outcome.bind_ok_message _ _ _ _ h) hmsg

theorem clientTakesSeatWith_message (handle : Club → Event → Outcome (String × Club))
    (club : Club) (event : Event) (msg : String) (club' : Club)
    (h : clientTakesSeatWith handle club event = .ok (msg, club')) (hmsg : msg ≠ "") :
    SameState club club' := by
  unfold clientTakesSeatWith at h
  split at h
  · rename_i c arg rest _
    cases ha : atoi arg with
    | none =>
      simp only [ha, Outcome.ok.injEq, Prod.mk.injEq] at h
      rw [← h.2]; exact sameState_refl _
    | some n =>
      simp only [ha] at h
      split at h
      · simp only [Outcome.ok.injEq, Prod.mk.injEq] at h
        rw [← h.2]; exact sameState_print _ _
      · cases ht : (club.print (formatTime event.Time ++ " " ++ itoa event.ID ++ " " ++ c ++ " "
          ++ itoa n)).Tables[tableIndex n]? with
        | none => simp [ht] at h
        | some newTable =>
          simp only [ht] at h
          cases hl : (club.print (formatTime event.Time ++ " " ++ itoa event.ID ++ " " ++ c
            ++ " " ++ itoa n)).Clients.lookup c with
          | none =>
            simp only [hl, Outcome.ok.injEq, Prod.mk.injEq] at h
            rw [← h.2]; exact sameState_print _ _
          | some p =>
            simp only [hl] at h
            split at h
            · simp only [Outcome.ok.injEq, Prod.mk.injEq] at h
              rw [← h.2]; exact sameState_print _ _
            · exact absurd (Outcome.bind_ok_message _ _ _ _ h) hmsg
  · simp at h

/-- Every non-empty result of `handleEvent` (a diagnostic, or the queue-full
notice) comes with the Directory, the Queue and the tables untouched. -/
theorem handleEvent_message (club : Club) (event : Event) (msg : String) (club' : Club)
    (h : handleEvent club event = .ok (msg, club')) (hmsg : msg ≠ "") :
    SameState club club' := by
  rw [handleEvent_eq] at h
  unfold handleEventWith at h
  split at h
  · exact clientCome_message club event msg club' h hmsg
  · split at h
    · exact clientTakesSeatWith_message _ club event msg club' h hmsg
    · split at h
      · exact clientWaits_message club event msg club' h hmsg
      · split at h
        · exact clientLeavesWith_message _ club event msg club' h hmsg
        · simp only [Outcome.ok.injEq, Prod.mk.injEq] at h
          rw [← h.2]; exact sameState_refl _

theorem diagnostic_ne_empty (t : Int) (msg : String) (h : msg ∈ diagnostics t) : msg ≠ "" := by
  unfold diagnostics at h
  simp only [List.mem_cons, List.mem_singleton, List.not_mem_nil, or_false] at h
  intro he
  have hlen : msg.length = 0 := by rw [he]; rfl
  rcases h with h | h | h | h | h | h | h <;>
    · rw [h, String.length_append] at hlen
      exact absurd (Nat.eq_zero_of_add_eq_zero_left hlen) (by decide)

/-! ## Error handling -/

/-- Claim C11, refuted as stated: the action code 12 is none of 1, 2, 3, 4, yet
an event with code 12 is dispatched to `clientTakesSeat`; here it seats
`client2` at table 2 and returns no diagnostic. -/
theorem input_code_twelve_counterexample :
    ((12 : Int) ≠ 1 ∧ (12 : Int) ≠ 2 ∧ (12 : Int) ≠ 3 ∧ (12 : Int) ≠ 4) ∧
    handleEvent oneSeated ⟨625, 12, ["client2", "2"]⟩ =
      .ok ("", { oneSeated.print "10:25 12 client2 2" with
        Clients := AList.insert "client2" 2 oneSeated.Clients
        Tables := [⟨"client1", 594, 0, 0⟩, ⟨"client2", 625, 0, 0⟩, ⟨"", 527040, 0, 0⟩] }) :=
  ⟨by decide, rfl⟩

/-- Claim C11, as amended: for every club state and every event whose action
code is none of 1, 2, 3, 4 and 12, `handleEvent` returns
`<t> 13 IncorrectEventID` and leaves the whole state unchanged, the output
included. -/
theorem unknown_code (club : Club) (event : Event) (h1 : event.ID ≠ 1) (h2 : event.ID ≠ 2)
    (h3 : event.ID ≠ 3) (h4 : event.ID ≠ 4) (h12 : event.ID ≠ 12) :
    handleEvent club event = .ok (formatTime event.Time ++ " 13 IncorrectEventID", club) := by
  rw [handleEvent_eq]
  simp [handleEventWith, h1, h2, h3, h4, h12]

theorem unknown_code_witness :
    handleEvent twoSeated ⟨660, 5, []⟩ = .ok ("11:00 13 IncorrectEventID", twoSeated) :=
  unknown_code twoSeated ⟨660, 5, []⟩ (by decide) (by decide) (by decide) (by decide) (by decide)

/-- Claim C12, refuted as stated: `anton` has no Directory entry and asks for
table 7 of 2 with code 2; the table number is checked first and the result is
`IncorrectTableNumber`, not `ClientUnknown`. -/
theorem unknown_client_counterexample :
    twoSeated.Clients.lookup "anton" = none ∧
    handleEvent twoSeated ⟨610, 2, ["anton", "7"]⟩ =
      .ok ("10:10 13 IncorrectTableNumber", twoSeated.print "10:10 2 anton 7") :=
  ⟨rfl, rfl⟩

/-- Claim C12, as amended: for a client without Directory entry, an event with
code 3 or 4, and an event with code 2 whose slot argument is an integer in
`[1, N]`, returns `<t> 13 ClientUnknown`; an event with code 2 whose slot
argument is not an integer or lies outside `[1, N]` returns
`<t> 13 IncorrectTableNumber`.  In every case the Directory, the Queue and all
tables are unchanged (only the echo line is printed). -/
theorem unknown_client (club : Club) (t : Int) (c : String) (hc : c ∉ club.Clients) :
    (∀ (id : Int) (rest : List String), id = 3 ∨ id = 4 →
      handleEvent club ⟨t, id, c :: rest⟩ =
        .ok (formatTime t ++ " 13 ClientUnknown",
          club.print (formatTime t ++ " " ++ itoa id ++ " " ++ c))) ∧
    (∀ (s : String) (rest : List String) (n : Int), atoi s = some n → 1 ≤ n →
      n ≤ club.Tables.length →
      handleEvent club ⟨t, 2, c :: s :: rest⟩ =
        .ok (formatTime t ++ " 13 ClientUnknown",
          club.print (formatTime t ++ " " ++ itoa 2 ++ " " ++ c ++ " " ++ itoa n))) ∧
    (∀ (s : String) (rest : List String) (n : Int), atoi s = some n →
      n < 1 ∨ (club.Tables.length : Int) < n →
      handleEvent club ⟨t, 2, c :: s :: rest⟩ =
        .ok (formatTime t ++ " 13 IncorrectTableNumber",
          club.print (formatTime t ++ " " ++ itoa 2 ++ " " ++ c ++ " " ++ itoa n))) ∧
    (∀ (s : String) (rest : List String), atoi s = none →
      handleEvent club ⟨t, 2, c :: s :: rest⟩ =
        .ok (formatTime t ++ " 13 IncorrectTableNumber", club)) := by
  have hlook := AList.lookup_eq_none.mpr hc
  refine ⟨fun id rest hid => ?_, fun s rest n hn h1 h2 => ?_, fun s rest n hn hr => ?_,
    fun s rest hn => ?_⟩
  · rw [handleEvent_eq]
    rcases hid with h | h <;> subst h <;>
      simp [handleEventWith, clientWaits, clientLeavesWith, Club.print, hlook]
  · have hr : ¬ (n < 1 ∨ n > (club.Tables.length : Int)) := by omega
    have hlt := tableIndex_lt h1 h2
    rw [handleEvent_eq, handleEventWith_seat _ _ _ _ _ (Or.inl rfl)]
    simp [clientTakesSeatWith, hn, Club.print, hr, hlook, List.getElem?_eq_getElem hlt]
  · have hr' : n < 1 ∨ n > (club.Tables.length : Int) := hr
    rw [handleEvent_eq, handleEventWith_seat _ _ _ _ _ (Or.inl rfl)]
    simp [clientTakesSeatWith, hn, Club.print, hr']
  · rw [handleEvent_eq, handleEventWith_seat _ _ _ _ _ (Or.inl rfl)]
    simp [clientTakesSeatWith, hn]

theorem unknown_client_witness :
    handleEvent twoSeated ⟨610, 3, ["anton"]⟩ =
      .ok ("10:10 13 ClientUnknown", twoSeated.print "10:10 3 anton") ∧
    handleEvent twoSeated ⟨610, 4, ["anton"]⟩ =
      .ok ("10:10 13 ClientUnknown", twoSeated.print "10:10 4 anton") ∧
    handleEvent twoSeated ⟨610, 2, ["anton", "1"]⟩ =
      .ok ("10:10 13 ClientUnknown", twoSeated.print "10:10 2 anton 1") ∧
    handleEvent twoSeated ⟨610, 2, ["anton", "7"]⟩ =
      .ok ("10:10 13 IncorrectTableNumber", twoSeated.print "10:10 2 anton 7") ∧
    handleEvent twoSeated ⟨610, 2, ["anton", "one"]⟩ =
      .ok ("10:10 13 IncorrectTableNumber", twoSeated) :=
  ⟨(unknown_client twoSeated 610 "anton" (AList.lookup_eq_none.mp rfl)).1 3 [] (Or.inl rfl),
   (unknown_client twoSeated 610 "anton" (AList.lookup_eq_none.mp rfl)).1 4 [] (Or.inr rfl),
   (unknown_client twoSeated 610 "anton" (AList.lookup_eq_none.mp rfl)).2.1 "1" [] 1 rfl
      (by decide) (by decide),
   (unknown_client twoSeated 610 "anton" (AList.lookup_eq_none.mp rfl)).2.2.1 "7" [] 7 rfl
      (Or.inr (by decide)),
   (unknown_client twoSeated 610 "anton" (AList.lookup_eq_none.mp rfl)).2.2.2 "one" [] rfl⟩

/-- Claim C13: whenever `handleEvent` returns one of the seven code-13
diagnostics, the Directory, the Queue and every table are exactly as they were
before the event. -/
theorem error_atomicity (club : Club) (event : Event) (msg : String) (club' : Club)
    (h : handleEvent club event = .ok (msg, club')) (hmsg : msg ∈ diagnostics event.Time) :
    club'.Clients = club.Clients ∧ club'.Queue = club.Queue ∧ club'.Tables = club.Tables :=
  handleEvent_message club event msg club' h (diagnostic_ne_empty event.Time msg hmsg)

theorem error_atomicity_witness :
    handleEvent twoSeated ⟨660, 2, ["alex", "1"]⟩ =
      .ok ("11:00 13 PlaceIsBusy", twoSeated.print "11:00 2 alex 1") ∧
    "11:00 13 PlaceIsBusy" ∈ diagnostics 660 ∧
    (twoSeated.print "11:00 2 alex 1").Clients = twoSeated.Clients ∧
    (twoSeated.print "11:00 2 alex 1").Queue = twoSeated.Queue ∧
    (twoSeated.print "11:00 2 alex 1").Tables = twoSeated.Tables :=
  ⟨rfl, by decide,
   error_atomicity twoSeated ⟨660, 2, ["alex", "1"]⟩ "11:00 13 PlaceIsBusy"
    (twoSeated.print "11:00 2 alex 1") rfl (by decide)⟩

/-! ## The reference scenario -/

/-- Claim C14: on the reference scenario (3 tables, `09:00`-`19:00`, price 10,
the 14 events of `testdata/test1.txt`) `processEvents` prints `NotOpenYet` at
`08:48`, `ICanWaitNoLonger!` at `09:52`, `PlaceIsBusy` at `11:35`, the promotion
`12:33 12 client4 1` and the single closure notice `19:00 11 client3`, and ends
with the totals (70, 358), (30, 138), (90, 481); `workReport` prints them as
`05:58`, `02:18` and `08:01`, its whole output being the one the test expects. -/
theorem reference_scenario :
    (processEvents referenceClub).bind (fun club =>
      .ok (club.Stdout, club.Tables, club.Queue, club.Clients.entries.map fun e => (e.1, e.2))) =
      .ok (["08:48 1 client1", "08:48 13 NotOpenYet", "09:41 1 client1", "09:48 1 client2",
           "09:52 3 client1", "09:52 13 ICanWaitNoLonger!", "09:54 2 client1 1",
           "10:25 2 client2 2", "10:58 1 client3", "10:59 2 client3 3", "11:30 1 client4",
           "11:35 2 client4 2", "11:35 13 PlaceIsBusy", "11:45 3 client4", "12:33 4 client1",
           "12:33 12 client4 1", "12:43 4 client2", "15:52 4 client4", "19:00 11 client3"],
          [⟨"", 753, 70, 358⟩, ⟨"", 625, 30, 138⟩, ⟨"", 659, 90, 481⟩], [], [("client3", 3)]) ∧
    (workReport referenceClub).bind (fun club => .ok club.Stdout) =
      .ok ["09:00", "08:48 1 client1", "08:48 13 NotOpenYet", "09:41 1 client1",
           "09:48 1 client2", "09:52 3 client1", "09:52 13 ICanWaitNoLonger!",
           "09:54 2 client1 1", "10:25 2 client2 2", "10:58 1 client3", "10:59 2 client3 3",
           "11:30 1 client4", "11:35 2 client4 2", "11:35 13 PlaceIsBusy", "11:45 3 client4",
           "12:33 4 client1", "12:33 12 client4 1", "12:43 4 client2", "15:52 4 client4",
           "19:00 11 client3", "19:00", "1 70 05:58", "2 30 02:18", "3 90 08:01"] := by
  constructor <;> decide!

/-! ## Safety of a run -/

theorem Kept.refl_of_range {club : Club} (hin : DirectoryInRange club) : Kept club club :=
  ⟨rfl, rfl, rfl, le_refl _, hin⟩

theorem Kept.print {club : Club} (hin : DirectoryInRange club) (line : String) :
    Kept club (club.print line) :=
  ⟨rfl, rfl, rfl, le_refl _, hin⟩

theorem Kept.stepped {club club' : Club} (h : Kept club club') : Stepped club club' :=
  ⟨h.tables, h.range, fun hb => by rw [h.tables]; exact le_trans h.queue hb⟩

/-- A seat event with two arguments returns normally on a state whose Directory
values are table numbers, when the vacate it may call does. -/
theorem seat_safe (handle : Club → Event → Outcome (String × Club)) (club : Club)
    (event : Event) (c arg : String) (rest : List String)
    (hbody : event.EventBody = c :: arg :: rest) (hin : DirectoryInRange club)
    (hrec : ∀ (club₁ : Club) (p : Int), club₁.Clients = club.Clients →
      club₁.Tables = club.Tables → club₁.Queue = club.Queue →
      club₁.CloseTime = club.CloseTime → club₁.HourPrice = club.HourPrice → 1 ≤ p →
      p ≤ club.Tables.length →
      ∃ club', clientLeavesTableWith handle club₁ p event.Time = .ok club' ∧ Kept club club') :
    ∃ msg club', clientTakesSeatWith handle club event = .ok (msg, club') ∧ Kept club club' := by
  simp only [clientTakesSeatWith, hbody]
  cases ha : atoi arg with
  | none => exact ⟨_, _, rfl, Kept.refl_of_range hin⟩
  | some k =>
    simp only []
    by_cases hr : k < 1 ∨ k > ((club.print (formatTime event.Time ++ " " ++ itoa event.ID ++ " "
        ++ c ++ " " ++ itoa k)).Tables.length : Int)
    · rw [if_pos hr]
      exact ⟨_, _, rfl, Kept.print hin _⟩
    · rw [if_neg hr]
      have hk1 : 1 ≤ k := by omega
      have hk2 : k ≤ club.Tables.length := by
        have : (club.print (formatTime event.Time ++ " " ++ itoa event.ID ++ " "
          ++ c ++ " " ++ itoa k)).Tables.length = club.Tables.length := rfl
        omega
      have hlt := tableIndex_lt hk1 hk2
      simp only [Club.print, List.getElem?_eq_getElem hlt]
      cases hc : club.Clients.lookup c with
      | none => exact ⟨_, _, rfl, Kept.print hin _⟩
      | some p =>
        simp only []
        split
        · exact ⟨_, _, rfl, Kept.print hin _⟩
        · by_cases hp : p = 0
          · subst hp
            simp only [ne_eq, not_true_eq_false, if_false]
            refine ⟨_, _, rfl, ?_, rfl, rfl, le_refl _, ?_⟩
            · simp
            · rw [directoryInRange_iff]
              simp only [List.length_modify]
              exact directoryInRange_insert c k _ _ (by omega) hk2
                ((directoryInRange_iff club).mp hin)
          · have hpr := (directoryInRange_iff club).mp hin c p hc
            obtain ⟨club', hok, hk'⟩ := hrec { club with Stdout := club.Stdout ++
              [formatTime event.Time ++ " " ++ itoa event.ID ++ " " ++ c ++ " " ++ itoa k] }
              p rfl rfl rfl rfl rfl (by omega) hpr.2
            simp only [ne_eq, hp, not_false_eq_true, if_true, hok]
            refine ⟨_, _, rfl, ?_, hk'.closeTime, hk'.hourPrice, hk'.queue, ?_⟩
            · simp [hk'.tables]
            · rw [directoryInRange_iff]
              simp only [List.length_modify]
              exact directoryInRange_insert c k _ _ (by omega)
                (by rw [hk'.tables]; exact hk2) ((directoryInRange_iff club').mp hk'.range)

/-- With fuel for every queued client, `clientLeavesTable` on an existing table
returns normally, whatever the number of tables. -/
theorem clientLeavesTableWith_safe (n : Nat) :
    ∀ (club : Club) (k t : Int), club.Queue.length ≤ n → DirectoryInRange club →
      1 ≤ k → k ≤ club.Tables.length →
      ∃ club', clientLeavesTableWith (handleEventFuel n) club k t = .ok club' ∧
        Kept club club' := by
  induction n with
  | zero =>
    intro club k t hq hin hk1 hk2
    have hnil : club.Queue = [] := List.length_eq_zero.mp (by omega)
    rw [clientLeavesTableWith_quiet _ club k t hk1 hk2 (Or.inl hnil)]
    exact ⟨_, rfl, by simp, rfl, rfl, le_refl _,
      directoryInRange_of_fields hin rfl (by simp)⟩
  | succ m ih =>
    intro club k t hq hin hk1 hk2
    by_cases hquiet : club.Queue = [] ∨ t = club.CloseTime
    · rw [clientLeavesTableWith_quiet _ club k t hk1 hk2 hquiet]
      exact ⟨_, rfl, by simp, rfl, rfl, le_refl _,
        directoryInRange_of_fields hin rfl (by simp)⟩
    · have hclose : t ≠ club.CloseTime := fun h => hquiet (Or.inr h)
      obtain ⟨h, rest, hQ⟩ := List.exists_cons_of_ne_nil (fun h => hquiet (Or.inl h))
      have hlen : rest.length ≤ m := by rw [hQ] at hq; simpa using hq
      obtain ⟨msg, club', hok, hk'⟩ := seat_safe (handleEventFuel m)
        { club with
          Tables := club.Tables.modify (vacate club.HourPrice t) (tableIndex k)
          Queue := rest } ⟨t, 12, [h, itoa k]⟩ h (itoa k) [] rfl
        (directoryInRange_of_fields hin rfl (by simp))
        (fun club₁ p hc ht hq' hct hhp hp1 hp2 => by
          obtain ⟨club'', hok, hk''⟩ := ih club₁ p t (by rw [hq']; exact hlen)
            (directoryInRange_of_fields hin hc (by rw [ht]; simp)) hp1
            (by rw [ht]; exact hp2)
          exact ⟨club'', hok, hk''.of_fields (by rw [ht]) hct hhp (by rw [hq'])⟩)
      have hdisp : handleEventFuel (m + 1) = handleEventWith (handleEventFuel m) := rfl
      rw [clientLeavesTableWith_promote _ club k t h rest hk1 hk2 hQ hclose, hdisp,
        handleEventWith_seat _ _ _ _ _ (Or.inr rfl), hok]
      exact ⟨club', rfl, hk'.of_fields (by simp) rfl rfl (by simp [hQ])⟩


theorem directoryInRange_erase (club : Club) (c : String) (hin : DirectoryInRange club) :
    DirectoryInRange { club with Clients := club.Clients.erase c } := by
  rw [directoryInRange_iff] at hin ⊢
  intro c' p hp
  by_cases hc : c' = c
  · subst hc
    simp [AList.lookup_erase] at hp
  · rw [show ({ club with Clients := club.Clients.erase c } : Club).Clients
      = club.Clients.erase c from rfl, AList.lookup_erase_ne hc] at hp
    exact hin c' p hp

theorem clientCome_safe (club : Club) (event : Event) (c : String) (rest : List String)
    (hbody : event.EventBody = c :: rest) (hin : DirectoryInRange club) :
    ∃ msg club', clientCome club event = .ok (msg, club') ∧ Kept club club' := by
  simp only [clientCome, hbody, Club.print]
  cases club.Clients.lookup c with
  | some p => exact ⟨_, _, rfl, Kept.print hin _⟩
  | none =>
    simp only []
    split
    · exact ⟨_, _, rfl, Kept.print hin _⟩
    · refine ⟨_, _, rfl, rfl, rfl, rfl, le_refl _, ?_⟩
      rw [directoryInRange_iff]
      exact directoryInRange_insert c 0 _ _ (le_refl _) (by simp)
        ((directoryInRange_iff club).mp hin)

theorem clientWaits_safe (club : Club) (event : Event) (c : String) (rest : List String)
    (hbody : event.EventBody = c :: rest) (hin : DirectoryInRange club) :
    ∃ msg club', clientWaits club event = .ok (msg, club') ∧ Stepped club club' := by
  simp only [clientWaits, hbody, Club.print]
  cases club.Clients.lookup c with
  | none => exact ⟨_, _, rfl, (Kept.print hin _).stepped⟩
  | some p =>
    simp only []
    split
    · exact ⟨_, _, rfl, (Kept.print hin _).stepped⟩
    · split
      · exact ⟨_, _, rfl, (Kept.print hin _).stepped⟩
      · rename_i _ hlt
        refine ⟨_, _, rfl, rfl, directoryInRange_of_fields hin rfl rfl, fun _ => ?_⟩
        simp only [List.length_append, List.length_singleton]
        simp only [ge_iff_le, not_le] at hlt
        omega

theorem clientLeavesWith_safe (n : Nat) (club : Club) (event : Event) (c : String)
    (rest : List String) (hbody : event.EventBody = c :: rest) (hq : club.Queue.length ≤ n)
    (hin : DirectoryInRange club) :
    ∃ msg club', clientLeavesWith (handleEventFuel n) club event = .ok (msg, club') ∧
      Kept club club' := by
  simp only [clientLeavesWith, hbody]
  cases hc : (club.print (formatTime event.Time ++ " " ++ itoa event.ID ++ " " ++ c)).Clients.lookup
    c with
  | none => exact ⟨_, _, rfl, Kept.print hin _⟩
  | some p =>
    simp only []
    by_cases hp : p = 0
    · subst hp
      simp only [ne_eq, not_true_eq_false, if_false, Outcome.bind_ok]
      exact ⟨_, _, rfl, rfl, rfl, rfl, le_refl _, directoryInRange_erase _ c
        (directoryInRange_of_fields hin rfl rfl)⟩
    · have hpr := (directoryInRange_iff club).mp hin c p hc
      obtain ⟨club', hok, hk'⟩ := clientLeavesTableWith_safe n
        (club.print (formatTime event.Time ++ " " ++ itoa event.ID ++ " " ++ c)) p event.Time
        hq (directoryInRange_of_fields hin rfl rfl) (by omega) hpr.2
      simp only [ne_eq, hp, not_false_eq_true, if_true, hok, Outcome.bind_ok]
      exact ⟨_, _, rfl, hk'.tables, hk'.closeTime, hk'.hourPrice, hk'.queue,
        directoryInRange_erase _ c hk'.range⟩

/-- On a state whose Directory values are table numbers, an event that carries
its arguments is dispatched without a panic, and the resulting state keeps the
number of tables, the range of the Directory and the bound of the queue. -/
theorem handleEvent_safe (club : Club) (event : Event) (hin : DirectoryInRange club)
    (hwf : WellFormedEvent event) :
    ∃ msg club', handleEvent club event = .ok (msg, club') ∧ Stepped club club' := by
  obtain ⟨c, rest, hbody⟩ : ∃ c rest, event.EventBody = c :: rest := by
    cases hb : event.EventBody with
    | nil => have := hwf.1; simp [hb] at this
    | cons c rest => exact ⟨c, rest, rfl⟩
  rw [handleEvent_eq]
  unfold handleEventWith
  split
  · obtain ⟨msg, club', h, hk⟩ := clientCome_safe club event c rest hbody hin
    exact ⟨msg, club', h, hk.stepped⟩
  · split
    · rename_i hid
      obtain ⟨arg, rest', hbody'⟩ : ∃ arg rest', event.EventBody = c :: arg :: rest' := by
        cases hr : rest with
        | nil => have := hwf.2 hid; simp [hbody, hr] at this
        | cons arg rest' => exact ⟨arg, rest', by rw [hbody, hr]⟩
      obtain ⟨msg, club', h, hk⟩ := seat_safe (handleEventFuel club.Queue.length) club event
        c arg rest' hbody' hin
        (fun club₁ p hc ht hq' hct hhp hp1 hp2 => by
          obtain ⟨club'', hok, hk''⟩ := clientLeavesTableWith_safe club.Queue.length club₁ p
            event.Time (by rw [hq']) (directoryInRange_of_fields hin hc (by rw [ht])) hp1
            (by rw [ht]; exact hp2)
          exact ⟨club'', hok, hk''.of_fields (by rw [ht]) hct hhp (by rw [hq'])⟩)
      exact ⟨msg, club', h, hk.stepped⟩
    · split
      · exact clientWaits_safe club event c rest hbody hin
      · split
        · obtain ⟨msg, club', h, hk⟩ := clientLeavesWith_safe club.Queue.length club event c
            rest hbody (le_refl _) hin
          exact ⟨msg, club', h, hk.stepped⟩
        · exact ⟨_, _, rfl, (Kept.refl_of_range hin).stepped⟩

theorem Stepped.trans {club₀ club₁ club₂ : Club} (h₁ : Stepped club₀ club₁)
    (h₂ : Stepped club₁ club₂) : Stepped club₀ club₂ :=
  ⟨h₂.tables.trans h₁.tables, h₂.range, fun hb => h₂.bound (h₁.bound hb)⟩

/-- A run over events that carry their arguments never panics and keeps the
invariants. -/
theorem runEvents_safe (events : List Event) :
    ∀ club : Club, DirectoryInRange club → (∀ event ∈ events, WellFormedEvent event) →
      ∃ club', runEvents events club = .ok club' ∧ Stepped club club' := by
  induction events with
  | nil =>
    intro club hin _
    exact ⟨club, rfl, (Kept.refl_of_range hin).stepped⟩
  | cons event rest ih =>
    intro club hin hwf
    obtain ⟨msg, club₁, h1, hs1⟩ := handleEvent_safe club event hin
      (hwf event (List.mem_cons_self _ _))
    have hs1' : Stepped club (if msg ≠ "" then club₁.print msg else club₁) := by
      split
      · exact ⟨hs1.tables, directoryInRange_of_fields hs1.range rfl rfl, hs1.bound⟩
      · exact hs1
    obtain ⟨club₂, h2, hs2⟩ := ih _ hs1'.range
      (fun e he => hwf e (List.mem_cons_of_mem _ he))
    refine ⟨club₂, ?_, hs1'.trans hs2⟩
    simp only [runEvents, h1, Outcome.bind_ok, h2]

theorem initialClub_inRange (n : Nat) (openTime closeTime hourPrice : Int)
    (events : List Event) : DirectoryInRange (initialClub n openTime closeTime hourPrice events) := by
  intro e he
  simp [initialClub] at he

/-! ## Invariants the code does not keep -/

/-- Claim C15, evaluated at a failing input: with 2 tables, `x` sits at table 1
and queues, `y` leaves table 2 exactly at the close time, then `x` moves to
table 2.  The vacate of table 1 promotes the queue head, `x` itself, back to
table 1, so `x` ends as the occupant of both tables (and table 1 is billed
twice: 220 for 620 minutes at price 10). -/
theorem double_occupancy_after_move :
    InputLog moveWhileQueued ∧
    (runEvents moveWhileQueued (initialClub 2 540 1140 10 moveWhileQueued)).bind
        (fun club => .ok club.summary) =
      .ok ([("x", 220, 1240), ("x", 100, 590)], [], [("x", 2)]) := by
  constructor <;> decide!

/-- Claim C16, evaluated at two failing inputs: a seated client who waits is in
the Queue with slot index 1, and a queued client who leaves stays in the Queue
without a Directory entry. -/
theorem queued_but_seated_or_absent :
    (InputLog waitWhileSeated ∧
      (runEvents waitWhileSeated (initialClub 1 540 1140 10 waitWhileSeated)).bind
          (fun club => .ok club.summary) =
        .ok ([("a", 0, 0)], ["a"], [("a", 1)])) ∧
    (InputLog leaveWhileQueued ∧
      (runEvents leaveWhileQueued (initialClub 1 540 1140 10 leaveWhileQueued)).bind
          (fun club => .ok club.summary) =
        .ok ([("a", 0, 0)], ["b"], [("a", 1)])) := by
  refine ⟨⟨?_, ?_⟩, ⟨?_, ?_⟩⟩ <;> decide!

/-- Claim C18, evaluated at a failing input: `a` arrives at `18:00` and sits
down at `20:00`, after the close time `19:00`; the closure step vacates the
table with end time `19:00` and takes the revenue from 0 to -10 and the
occupied minutes from 0 to -60. -/
theorem closure_bills_negative :
    InputLog seatAfterClose ∧ (540 : Int) ≤ 1140 ∧ (0 : Int) ≤ 10 ∧
    (runEvents seatAfterClose (initialClub 1 540 1140 10 seatAfterClose)).bind
        (fun club => .ok club.summary) =
      .ok ([("a", 0, 0)], [], [("a", 1)]) ∧
    (processEvents (initialClub 1 540 1140 10 seatAfterClose)).bind
        (fun club => .ok club.summary) =
      .ok ([("", -10, -60)], [], [("a", 1)]) := by
  refine ⟨?_, ?_, ?_, ?_, ?_⟩ <;> decide!

/-! ## Invariants of every run -/

theorem closureProcessing_safe (club : Club) (hin : DirectoryInRange club) :
    ∃ club', closureProcessing club = .ok club' ∧ club'.Queue = club.Queue ∧
      club'.Clients = club.Clients ∧ club'.Tables.length = club.Tables.length := by
  obtain ⟨club', h, hc, hq, _, hl, _, _⟩ :=
    closeClients_spec (sortStrings club.Clients.keys) club hin
  exact ⟨club', h, hq, hc, hl⟩

theorem initialClub_tables (n : Nat) (openTime closeTime hourPrice : Int)
    (events : List Event) :
    (initialClub n openTime closeTime hourPrice events).Tables.length = n := by
  simp [initialClub]

/-- Claim C17: from the empty initial state with `N` tables, every run over
events that carry their arguments returns a state with at most `N` queued
clients, and so does the closure after it; every single operation, a dispatched
event or the closure, takes a state with `length(Queue) ≤ N` (and Directory
values that are table numbers) to a state with `length(Queue) ≤ N`. -/
theorem queue_bound (n : Nat) (openTime closeTime hourPrice : Int)
    (events log : List Event) (hwf : ∀ event ∈ log, WellFormedEvent event) :
    (∃ club, runEvents log (initialClub n openTime closeTime hourPrice events) = .ok club ∧
      club.Tables.length = n ∧ club.Queue.length ≤ n ∧
      ∃ club', closureProcessing club = .ok club' ∧ club'.Tables.length = n ∧
        club'.Queue.length ≤ n) ∧
    (∀ (club : Club) (event : Event), DirectoryInRange club → WellFormedEvent event →
      club.Queue.length ≤ club.Tables.length →
      ∃ msg club', handleEvent club event = .ok (msg, club') ∧
        club'.Tables.length = club.Tables.length ∧
        club'.Queue.length ≤ club'.Tables.length) ∧
    (∀ club : Club, DirectoryInRange club → club.Queue.length ≤ club.Tables.length →
      ∃ club', closureProcessing club = .ok club' ∧
        club'.Tables.length = club.Tables.length ∧
        club'.Queue.length ≤ club'.Tables.length) := by
  have hclose : ∀ club : Club, DirectoryInRange club →
      club.Queue.length ≤ club.Tables.length →
      ∃ club', closureProcessing club = .ok club' ∧
        club'.Tables.length = club.Tables.length ∧
        club'.Queue.length ≤ club'.Tables.length := by
    intro club hin hb
    obtain ⟨club', h, hq, _, hl⟩ := closureProcessing_safe club hin
    exact ⟨club', h, hl, by rw [hq, hl]; exact hb⟩
  refine ⟨?_, fun club event hin hwf' hb => ?_, hclose⟩
  · obtain ⟨club, hrun, hs⟩ := runEvents_safe log _
      (initialClub_inRange n openTime closeTime hourPrice events) hwf
    have hlen : club.Tables.length = n := by rw [hs.tables, initialClub_tables]
    have hb : club.Queue.length ≤ club.Tables.length :=
      hs.bound (by simp [initialClub])
    obtain ⟨club', h, hl, hq⟩ := hclose club hs.range hb
    exact ⟨club, hrun, hlen, by rw [← hlen]; exact hb, club', h, by rw [hl, hlen],
      by rw [← hlen, ← hl]; exact hq⟩
  · obtain ⟨msg, club', h, hs⟩ := handleEvent_safe club event hin hwf'
    exact ⟨msg, club', h, hs.tables, hs.bound hb⟩

theorem queue_bound_witness :
    (∃ club, runEvents referenceEvents (initialClub 3 540 1140 10 referenceEvents) = .ok club ∧
      club.Tables.length = 3 ∧ club.Queue.length ≤ 3 ∧
      ∃ club', closureProcessing club = .ok club' ∧ club'.Tables.length = 3 ∧
        club'.Queue.length ≤ 3) ∧
    (∃ msg club', handleEvent twoSeatedTwoWaiting ⟨700, 3, ["alex"]⟩ = .ok (msg, club') ∧
      club'.Tables.length = twoSeatedTwoWaiting.Tables.length ∧
      club'.Queue.length ≤ club'.Tables.length) ∧
    (∃ club', closureProcessing twoSeatedTwoWaiting = .ok club' ∧
      club'.Tables.length = twoSeatedTwoWaiting.Tables.length ∧
      club'.Queue.length ≤ club'.Tables.length) :=
  ⟨(queue_bound 3 540 1140 10 referenceEvents referenceEvents (by decide)).1,
   (queue_bound 3 540 1140 10 referenceEvents referenceEvents (by decide)).2.1
      twoSeatedTwoWaiting ⟨700, 3, ["alex"]⟩ (by decide) (by decide) (by decide),
   (queue_bound 3 540 1140 10 referenceEvents referenceEvents (by decide)).2.2
      twoSeatedTwoWaiting (by decide) (by decide)⟩

/-- Claim C19: `handleEvent` terminates on every state and event.  The
dispatcher with `fuel` levels allows `fuel - 1` nested re-dispatches; with
`Queue.length + 1` levels, the fuel `handleEvent` runs with, it never runs out,
so one input event causes at most `Queue.length` nested re-dispatches, and
more levels give the same result. -/
theorem redispatch_terminates (club : Club) (event : Event) :
    handleEvent club event ≠ .outOfFuel ∧
    ∀ fuel, club.Queue.length + 1 ≤ fuel →
      handleEventFuel fuel club event = handleEvent club event := by
  refine ⟨handleEvent_ne_outOfFuel club event, fun fuel hfuel => ?_⟩
  exact (handleEventFuel_stable (club.Queue.length + 1) club event fuel
    (Nat.lt_succ_self _) hfuel).1

theorem redispatch_terminates_witness :
    handleEvent twoSeatedOneWaiting ⟨753, 4, ["alex"]⟩ ≠ .outOfFuel ∧
    handleEventFuel 7 twoSeatedOneWaiting ⟨753, 4, ["alex"]⟩ =
      handleEvent twoSeatedOneWaiting ⟨753, 4, ["alex"]⟩ ∧
    handleEventFuel 1 twoSeatedOneWaiting ⟨753, 4, ["alex"]⟩ = .outOfFuel :=
  ⟨(redispatch_terminates twoSeatedOneWaiting ⟨753, 4, ["alex"]⟩).1,
   (redispatch_terminates twoSeatedOneWaiting ⟨753, 4, ["alex"]⟩).2 7 (by decide), rfl⟩

/-- Claim C20: from the empty initial state with `N` tables, every run over
events that carry their arguments (at least one, two for a seat event) returns
normally in a state whose Directory values all lie in `[0, N]`; from such a
state neither a further event nor `closureProcessing` hits an index out of
range: they return normally, never with a panic. -/
theorem index_safety (n : Nat) (openTime closeTime hourPrice : Int)
    (events log : List Event) (hwf : ∀ event ∈ log, WellFormedEvent event) :
    ∃ club, runEvents log (initialClub n openTime closeTime hourPrice events) = .ok club ∧
      club.Tables.length = n ∧
      (∀ client place, club.Clients.lookup client = some place → 0 ≤ place ∧ place ≤ n) ∧
      (∀ event, WellFormedEvent event →
        handleEvent club event ≠ .panic ∧
        ∃ msg club', handleEvent club event = .ok (msg, club')) ∧
      (closureProcessing club ≠ .panic ∧ ∃ club', closureProcessing club = .ok club') := by
  obtain ⟨club, hrun, hs⟩ := runEvents_safe log _
    (initialClub_inRange n openTime closeTime hourPrice events) hwf
  have hlen : club.Tables.length = n := by rw [hs.tables, initialClub_tables]
  refine ⟨club, hrun, hlen, fun client place hl => ?_, fun event hwf' => ?_, ?_⟩
  · have := (directoryInRange_iff club).mp hs.range client place hl
    rw [hlen] at this
    exact this
  · obtain ⟨msg, club', h, _⟩ := handleEvent_safe club event hs.range hwf'
    exact ⟨by rw [h]; simp, msg, club', h⟩
  · obtain ⟨club', h, _⟩ := closureProcessing_safe club hs.range
    exact ⟨by rw [h]; simp, club', h⟩

theorem index_safety_witness :
    ∃ club, runEvents moveWhileQueued (initialClub 2 540 1140 10 []) = .ok club ∧
      club.Tables.length = 2 ∧
      (∀ client place, club.Clients.lookup client = some place → 0 ≤ place ∧ place ≤ 2) ∧
      (∀ event, WellFormedEvent event →
        handleEvent club event ≠ .panic ∧
        ∃ msg club', handleEvent club event = .ok (msg, club')) ∧
      (closureProcessing club ≠ .panic ∧ ∃ club', closureProcessing club = .ok club') :=
  index_safety 2 540 1140 10 [] moveWhileQueued (by decide)

end ComputerClub
